import Mathlib

/-!
# Parva Go SDK (`sdk/go/parva/client.go`): request building, retry loop, envelope decoder

A shallow embedding of `Client.getWithContext`, `parseEnvelope`, `DecodeData` and the
endpoint operations of the enveloped client.

Conventions of the embedding:

* Go's `int` is taken to be 64 bits wide; `time.Duration` is `int64` nanoseconds.  Both are
  `Int` here, with `wrap64` applied wherever the Go code computes a value that may overflow.
* A response body / `json.RawMessage` is the list of its characters (the body is taken to be
  valid UTF-8, so `len(b) > 0` is `b ≠ []`).
* The Go standard library and the network are not part of the repository.  What the client
  calls from them (`url.Parse`, `URL.Query`, `url.QueryEscape`, `json.Unmarshal`,
  `http.Client.Do` followed by `io.ReadAll`) is bundled in a `World` that every operation
  takes as a parameter.  A concrete `World` (with a model of `encoding/json`) is given further
  down and is used to evaluate the operations on concrete inputs.
* A run of `getWithContext` yields, besides what the Go function returns, the list of the
  observable steps it took, in order: the requests sent and the `time.Sleep` calls.
-/

namespace Parva

/-! ## Data model (`client.go` lines 15-58) -/

/-- A `float64`, held as its IEEE-754 binary64 bit pattern. -/
structure Float64 where
  bits : Nat
deriving DecidableEq, Repr

/-- The `float64` zero value `0`. -/
def Float64.zero : Float64 := ⟨0⟩

/-- The `float64` constant `0.5` (sign 0, biased exponent 1022, fraction 0). -/
def Float64.half : Float64 := ⟨0x3FE0000000000000⟩

/-- A response body, and a `json.RawMessage`. -/
abbrev RawMessage := List Char

structure ConfidenceMeta where
  Level : String
  Score : Float64
deriving DecidableEq, Repr

structure ProvenanceMeta where
  SnapshotID : Option String
  DatasetHash : Option String
  RulesHash : Option String
  VerifyURL : Option String
  Signature : Option String
deriving DecidableEq, Repr

structure UncertaintyMeta where
  IntervalHours : Option Float64
  BoundaryRisk : String
deriving DecidableEq, Repr

structure PolicyMeta where
  Profile : String
  Jurisdiction : String
  Advisory : Bool
deriving DecidableEq, Repr

structure ResponseMeta where
  Confidence : ConfidenceMeta
  Method : String
  Provenance : ProvenanceMeta
  Uncertainty : UncertaintyMeta
  TraceID : Option String
  Policy : PolicyMeta
deriving DecidableEq, Repr

structure Envelope where
  Data : RawMessage
  Meta : ResponseMeta
deriving DecidableEq, Repr

/-- The Go zero value of `ProvenanceMeta`: every pointer nil. -/
def ProvenanceMeta.zero : ProvenanceMeta := ⟨none, none, none, none, none⟩

/-- The Go zero value of `ResponseMeta`. -/
def ResponseMeta.zero : ResponseMeta :=
  { Confidence := ⟨"", Float64.zero⟩
    Method := ""
    Provenance := ProvenanceMeta.zero
    Uncertainty := ⟨none, ""⟩
    TraceID := none
    Policy := ⟨"", "", false⟩ }

/-- The Go zero value of `Envelope` (`var env Envelope`). -/
def Envelope.zero : Envelope := ⟨[], ResponseMeta.zero⟩

/-- The `Client` struct.  `HTTPClient` is represented by the `World` the operations take. -/
structure Client where
  BaseURL : String
  Retries : Int
  Backoff : Int
deriving DecidableEq, Repr

/-- The call `strings.TrimRight(s, "/")`: `s` without its trailing slashes. -/
def trimRightSlash (s : String) : String :=
  String.mk (s.data.reverse.dropWhile (fun ch => ch = '/')).reverse

/-- The function `NewClient`, lines 60-70 (the 20 second timeout belongs to `HTTPClient`):
2 retries and a backoff of 300ms, in nanoseconds. -/
def NewClient (baseURL : String) : Client :=
  { BaseURL :=
      trimRightSlash (if baseURL = "" then "http://localhost:8000/v5/api" else baseURL)
    Retries := 2
    Backoff := 300 * 1000000 }

/-! ## Errors, the standard library and the network -/

/-- The error values `getWithContext` can return. -/
inductive Err where
  /-- An error of `url.Parse` or `http.NewRequestWithContext`. -/
  | url (msg : String)
  /-- A transport error of `HTTPClient.Do` or a read error of `io.ReadAll`. -/
  | transport (msg : String)
  /-- The error `HTTPClient.Do` returns for a request whose context is cancelled. -/
  | canceled
  /-- The value of `fmt.Errorf("parva api %d: %s", resp.StatusCode, string(body))`. -/
  | api (status : Int) (body : RawMessage)
  /-- An error of `json.Unmarshal`. -/
  | decode (msg : String)
  /-- The value of `fmt.Errorf("request failed")`. -/
  | requestFailed
deriving DecidableEq, Repr

deriving instance DecidableEq for Except

/-- A `url.Values`: keys with their value lists. -/
abbrev Values := List (String × List String)

/-- A parsed `url.URL`: the query apart from everything else. -/
structure URL where
  /-- Scheme, authority, path and fragment as parsed. -/
  Loc : String
  RawQuery : String
deriving DecidableEq, Repr

/-- What one pass through lines 92-103 of the loop meets. -/
inductive Exchange where
  /-- The call `http.NewRequestWithContext` fails. -/
  | reqErr (e : Err)
  /-- The call `c.HTTPClient.Do(req)` fails. -/
  | doErr (e : Err)
  /-- The call `io.ReadAll(resp.Body)` fails. -/
  | readErr (e : Err)
  /-- A response arrives and its body is read in full. -/
  | response (status : Int) (body : RawMessage)
deriving DecidableEq, Repr

/-- The standard library functions the client calls, and the network. -/
structure World where
  /-- The function `url.Parse`. -/
  urlParse : String → Except Err URL
  /-- The method `URL.Query`: the values parsed from `RawQuery`. -/
  urlQuery : URL → Values
  /-- The function `url.QueryEscape`. -/
  queryEscape : String → String
  /-- The call `json.Unmarshal(body, &env)` with `env` a zero `Envelope`. -/
  jsonUnmarshal : RawMessage → Except Err Envelope
  /-- What the `k`-th request (counting from 0) for a URL meets, when its context is live. -/
  exchange : URL → Nat → Exchange

/-- The context bound to a call: the moment the caller cancels it, if ever.
`cancelInSleep = some k` says the cancellation signal is raised while the call is in its
`k`-th backoff sleep (counting from 0). -/
structure Context where
  cancelInSleep : Option Nat
deriving DecidableEq, Repr

/-- The context `context.Background()`: never cancelled. -/
def Context.Background : Context := ⟨none⟩

/-! ## 64-bit arithmetic -/

/-- Reduction of an integer to the `int64` range, as Go's overflowing arithmetic does. -/
def wrap64 (x : Int) : Int := (x + 2 ^ 63) % 2 ^ 64 - 2 ^ 63

/-- The largest `int64`. -/
def maxInt64 : Int := 2 ^ 63 - 1

/-- The argument of `time.Sleep` on line 118: `c.Backoff * time.Duration(1<<attempt)`.
The constant `1` takes the type `time.Duration`, so the shift is an `int64` shift: its result is
`2^attempt` reduced to 64 bits (0 from `attempt = 64` on).  A negative shift count is a run-time
panic (`none`). -/
def backoffDelay (c : Client) (attempt : Int) : Option Int :=
  if attempt < 0 then none
  else some (wrap64 (c.Backoff * wrap64 (2 ^ attempt.toNat)))

/-- How long `time.Sleep d` pauses: `d` nanoseconds, and not at all when `d ≤ 0`. -/
def sleepTime (d : Int) : Int := if d ≤ 0 then 0 else d

/-! ## `parseEnvelope` and `DecodeData` (lines 127-154) -/

/-- The envelope of the `v3 compatibility fallback`, lines 134-148. -/
def compatEnvelope (body : RawMessage) : Envelope :=
  { Data := body
    Meta :=
      { Confidence := ⟨"unknown", Float64.half⟩
        Method := "unknown"
        Provenance := ProvenanceMeta.zero
        Uncertainty := ⟨none, "unknown"⟩
        TraceID := none
        Policy := ⟨"np-mainstream", "NP", true⟩ } }

/-- The function `parseEnvelope`, lines 127-150.  The Go function returns `(*Envelope, error)`;
`unmarshal` is `json.Unmarshal` into a zero `Envelope`. -/
def parseEnvelope (unmarshal : RawMessage → Except Err Envelope) (body : RawMessage) :
    Except Err Envelope :=
  match unmarshal body with
  | .ok env => if env.Data.length > 0 then .ok env else .ok (compatEnvelope body)
  | .error _ => .ok (compatEnvelope body)

/-- The function `DecodeData`, lines 152-154: `json.Unmarshal(env.Data, out)`, with
`unmarshalT` the decoding of `json.Unmarshal` into the type `T`. -/
def DecodeData {T : Type} (unmarshalT : RawMessage → Except Err T) (env : Envelope) :
    Except Err T :=
  unmarshalT env.Data

/-! ## Building the query (lines 78-88) -/

/-- The method `Values.Set`: the key gets the single value `v`. -/
def Values.Set (q : Values) (k v : String) : Values :=
  (k, [v]) :: q.filter (fun e => e.1 != k)

/-- The value list stored under a key (`q[k]`), `none` when the key is absent. -/
def Values.find (q : Values) (k : String) : Option (List String) :=
  q.lookup k

/-- Lines 83-87: the loop over `params`, in the order the map iteration yields the entries. -/
def setParams (q : Values) : List (String × String) → Values
  | [] => q
  | (k, v) :: rest => if v ≠ "" then setParams (q.Set k v) rest else setParams q rest

/-- Insertion of a key into a list of keys sorted by `<` on strings (lexicographic). -/
def insertKey (k : String) : List String → List String
  | [] => [k]
  | x :: xs => if k.data < x.data then k :: x :: xs else x :: insertKey k xs

/-- The keys of a `Values`, sorted. -/
def sortedKeys (q : Values) : List String :=
  (q.map Prod.fst).foldr insertKey []

/-- The key and value pairs `Values.Encode` writes, in the order it writes them: by sorted
key, and for a key in the order of its values. -/
def Values.pairs (q : Values) : List (String × String) :=
  (sortedKeys q).flatMap fun k => ((q.find k).getD []).map fun v => (k, v)

/-- The method `Values.Encode`: `key=value` pairs, escaped, sorted by key, joined by `&`. -/
def Values.Encode (esc : String → String) (q : Values) : String :=
  "&".intercalate (q.pairs.map fun p => esc p.1 ++ "=" ++ esc p.2)

/-! ## The retry loop (lines 90-125) -/

/-- An observable step of a call. -/
inductive Event where
  /-- The `k`-th request is handed to `HTTPClient.Do` (one attempt). -/
  | request (k : Nat)
  /-- The call `time.Sleep d`, which returns only after `sleepTime d`. -/
  | sleep (d : Int)
deriving DecidableEq, Repr

/-- How a call ends. -/
inductive Halt where
  /-- The Go function returns `(env, nil)`. -/
  | ok (env : Envelope)
  /-- The Go function returns `(nil, err)`. -/
  | fail (err : Err)
  /-- A run-time panic. -/
  | panic
  /-- The embedding ran out of fuel (shown below never to happen). -/
  | outOfFuel
deriving DecidableEq, Repr

/-- A run: the steps taken, in order, and how it ended. -/
structure Run where
  events : List Event
  halt : Halt
deriving DecidableEq, Repr

/-- The run that takes step `e` first and goes on as `r`. -/
def Run.after (e : Event) (r : Run) : Run := ⟨e :: r.events, r.halt⟩

/-- The variables of the loop, together with what the embedding tracks of the context. -/
structure LoopState where
  attempt : Int
  lastErr : Option Err
  /-- Number of requests made so far. -/
  sent : Nat
  /-- Number of backoff sleeps made so far. -/
  slept : Nat
  /-- Whether the context of the call has been cancelled. -/
  cancelled : Bool
deriving DecidableEq, Repr

/-- Lines 117-119 and the loop's `attempt++`, then the rest of the loop `next`. -/
def backoffThen (c : Client) (ctx : Context) (st : LoopState) (next : LoopState → Run) : Run :=
  if st.attempt < c.Retries then
    match backoffDelay c st.attempt with
    | none => ⟨[], .panic⟩
    | some d =>
      Run.after (.sleep d)
        (next { st with
          attempt := wrap64 (st.attempt + 1)
          slept := st.slept + 1
          cancelled := st.cancelled || (ctx.cancelInSleep == some st.slept) })
  else
    next { st with attempt := wrap64 (st.attempt + 1) }

/-- The `for` loop of lines 91-120 followed by lines 121-124.  Each iteration uses one unit
of `fuel`. -/
def retryLoop (w : World) (c : Client) (ctx : Context) (u : URL) : Nat → LoopState → Run
  | 0, _ => ⟨[], .outOfFuel⟩
  | fuel + 1, st =>
    if st.attempt ≤ c.Retries then
      match (if st.cancelled then Exchange.doErr Err.canceled else w.exchange u st.sent) with
      | .reqErr e => ⟨[], .fail e⟩
      | .doErr e =>
        Run.after (.request st.sent)
          (backoffThen c ctx { st with lastErr := some e, sent := st.sent + 1 }
            (retryLoop w c ctx u fuel))
      | .readErr e =>
        Run.after (.request st.sent)
          (backoffThen c ctx { st with lastErr := some e, sent := st.sent + 1 }
            (retryLoop w c ctx u fuel))
      | .response status body =>
        Run.after (.request st.sent)
          (if 200 ≤ status ∧ status < 300 then
            match parseEnvelope w.jsonUnmarshal body with
            | .error parseErr => ⟨[], .fail parseErr⟩
            | .ok env => ⟨[], .ok env⟩
          else
            if status < 500 ∨ st.attempt ≥ c.Retries then
              ⟨[], .fail (.api status body)⟩
            else
              backoffThen c ctx
                { st with lastErr := some (.api status body), sent := st.sent + 1 }
                (retryLoop w c ctx u fuel))
    else
      match st.lastErr with
      | some e => ⟨[], .fail e⟩
      | none => ⟨[], .fail .requestFailed⟩

/-- The URL requested: lines 78-88. -/
def requestURL (w : World) (c : Client) (path : String) (params : List (String × String)) :
    Except Err URL :=
  match w.urlParse (c.BaseURL ++ path) with
  | .error err => .error err
  | .ok u =>
    let q := setParams (w.urlQuery u) params
    .ok { u with RawQuery := Values.Encode w.queryEscape q }

/-- The method `Client.getWithContext`, lines 77-125.  `params` lists the entries of the Go map
in the order its iteration yields them. -/
def getWithContext (w : World) (c : Client) (ctx : Context) (path : String)
    (params : List (String × String)) : Run :=
  match requestURL w c path params with
  | .error err => ⟨[], .fail err⟩
  | .ok u => retryLoop w c ctx u (c.Retries.toNat + 2) ⟨0, none, 0, 0, false⟩

/-- The method `Client.get`, lines 72-75. -/
def get (w : World) (c : Client) (path : String) (params : List (String × String)) : Run :=
  getWithContext w c Context.Background path params

/-! ## Endpoint operations (lines 156-203) -/

/-- The method `Client.Today`. -/
def Today (w : World) (c : Client) : Run :=
  get w c "/calendar/today" []

/-- The method `Client.Convert`. -/
def Convert (w : World) (c : Client) (date : String) : Run :=
  get w c "/calendar/convert" [("date", date)]

/-- The parameter map `Client.Panchanga` builds, lines 165-168. -/
def panchangaParams (date : String) : List (String × String) :=
  if date ≠ "" then [("date", date)] else []

/-- The method `Client.Panchanga`. -/
def Panchanga (w : World) (c : Client) (date : String) : Run :=
  get w c "/calendar/panchanga" (panchangaParams date)

/-- The method `Client.Upcoming`; `strconv.Itoa` writes the integer in decimal. -/
def Upcoming (w : World) (c : Client) (days : Int) : Run :=
  get w c "/festivals/upcoming" [("days", toString days)]

/-- The method `Client.ExplainFestival`. -/
def ExplainFestival (w : World) (c : Client) (festivalID : String) (year : Int) : Run :=
  get w c ("/festivals/" ++ festivalID ++ "/explain") [("year", toString year)]

/-- The method `Client.ExplainTrace`. -/
def ExplainTrace (w : World) (c : Client) (traceID : String) : Run :=
  get w c ("/explain/" ++ traceID) []

/-- The method `Client.Resolve`; `sprintf` is `fmt.Sprintf("%f", x)`. -/
def Resolve (w : World) (c : Client) (sprintf : Float64 → String) (date profile : String)
    (latitude longitude : Float64) (includeTrace : Bool) : Run :=
  get w c "/resolve"
    [("date", date),
     ("profile", if profile = "" then "np-mainstream" else profile),
     ("latitude", sprintf latitude),
     ("longitude", sprintf longitude),
     ("include_trace", toString includeTrace)]

/-- The method `Client.SpecConformance`. -/
def SpecConformance (w : World) (c : Client) : Run :=
  get w c "/spec/conformance" []

/-- The method `Client.VerifyTrace`. -/
def VerifyTrace (w : World) (c : Client) (traceID : String) : Run :=
  get w c ("/provenance/verify/trace/" ++ traceID) []

/-! ## Reading a run -/

/-- The number of attempts (requests sent) of a run. -/
def Run.attempts (r : Run) : Nat :=
  (r.events.filter fun e => match e with | .request _ => true | .sleep _ => false).length

/-- The arguments of the `time.Sleep` calls of a run, in order. -/
def Run.sleeps (r : Run) : List Int :=
  r.events.filterMap fun e => match e with | .request _ => none | .sleep d => some d

/-- The error a failed exchange leaves in `lastErr` when the failure is one the loop retries: a
network error, or a response whose status is 500 or above (line 112). -/
def Exchange.transientErr : Exchange → Option Err
  | .reqErr _ => none
  | .doErr e => some e
  | .readErr e => some e
  | .response status body => if 500 ≤ status then some (.api status body) else none

/-- The steps of `k` failed attempts in a row, the first with index `a`, each followed by its
backoff sleep. -/
def failedRounds (c : Client) (a : Nat) : Nat → List Event
  | 0 => []
  | k + 1 =>
    .request a :: .sleep (wrap64 (c.Backoff * wrap64 (2 ^ a))) :: failedRounds c (a + 1) k

/-- The run `r` preceded by the steps `es`. -/
def Run.afterAll (es : List Event) (r : Run) : Run := ⟨es ++ r.events, r.halt⟩

/-! ## A model of `encoding/json` for the types of `client.go` -/

namespace Json

/-- A decimal digit. -/
abbrev Digit := Fin 10

/-- The exponent part of a number literal: `e` or `E`, an optional sign (`some false` is `+`,
`some true` is `-`), and one or more digits. -/
structure Exponent where
  upper : Bool
  sign : Option Bool
  first : Digit
  more : List Digit
deriving DecidableEq, Repr

/-- A JSON number literal, by the grammar
`-? (0 | [1-9][0-9]*) (. [0-9]+)? ([eE] [+-]? [0-9]+)?`.  The integer part is `0` (`none`) or
a digit from 1 to 9 followed by digits; the fraction, when present, has one or more digits. -/
structure Number where
  neg : Bool
  int : Option (Fin 9 × List Digit)
  frac : Option (Digit × List Digit)
  exp : Option Exponent
deriving DecidableEq, Repr

/-- A JSON value, as a tree.  Objects keep their members in order. -/
inductive Value where
  | null : Value
  | bool (b : Bool) : Value
  | num (n : Number) : Value
  | str (s : String) : Value
  | arr (elems : List Value) : Value
  | obj (members : List (String × Value)) : Value
deriving Repr

/-- The character of a digit. -/
def Digit.char (d : Digit) : Char := Char.ofNat (48 + d.val)

/-- The digit a character stands for, if it is one of `0` to `9`. -/
def digit? (c : Char) : Option Digit :=
  if h : 48 ≤ c.toNat ∧ c.toNat < 58 then some ⟨c.toNat - 48, by omega⟩ else none

/-- A run of digits as text. -/
def renderDigits (ds : List Digit) : List Char := ds.map Digit.char

/-- The text of an exponent part. -/
def Exponent.render (e : Exponent) : List Char :=
  (if e.upper then 'E' else 'e') ::
    ((match e.sign with
      | none => []
      | some false => ['+']
      | some true => ['-']) ++ e.first.char :: renderDigits e.more)

/-- The text of the integer part of a number literal. -/
def renderInt : Option (Fin 9 × List Digit) → List Char
  | none => ['0']
  | some (d, ds) => Char.ofNat (49 + d.val) :: renderDigits ds

/-- The text of the fraction part of a number literal. -/
def renderFrac : Option (Digit × List Digit) → List Char
  | none => []
  | some (d, ds) => '.' :: d.char :: renderDigits ds

/-- The text of the exponent part of a number literal. -/
def renderExp : Option Exponent → List Char
  | none => []
  | some e => e.render

/-- The text of a number literal. -/
def Number.render (n : Number) : List Char :=
  (if n.neg then ['-'] else []) ++ (renderInt n.int ++ (renderFrac n.frac ++ renderExp n.exp))

/-- The lower-case hexadecimal digit of a number below 16. -/
def hexDigit (n : Nat) : Char :=
  if n < 10 then Char.ofNat (48 + n) else Char.ofNat (87 + n)

/-- A character of a string as written on the wire: the quote and the backslash are
escaped, a control character is written `\\u00XX`, any other character stands for itself. -/
def escapeChar (c : Char) : List Char :=
  if c = '"' then ['\\', '"']
  else if c = '\\' then ['\\', '\\']
  else if c.toNat < 32 then
    ['\\', 'u', '0', '0', hexDigit (c.toNat / 16), hexDigit (c.toNat % 16)]
  else [c]

/-- The text of a string literal. -/
def renderString (s : String) : List Char :=
  '"' :: (s.data.flatMap escapeChar ++ ['"'])

mutual
/-- The text of a value, in compact form.  `renderElems` and `renderMembers` write the
elements of an array and the members of an object, separated by commas. -/
def Value.render : Value → List Char
  | .null => ['n', 'u', 'l', 'l']
  | .bool true => ['t', 'r', 'u', 'e']
  | .bool false => ['f', 'a', 'l', 's', 'e']
  | .num n => n.render
  | .str s => renderString s
  | .arr vs => '[' :: (renderElems vs ++ [']'])
  | .obj ms => '{' :: (renderMembers ms ++ ['}'])
/-- The elements of an array as text, separated by commas. -/
def renderElems : List Value → List Char
  | [] => []
  | v :: vs => v.render ++ (match vs with | [] => [] | _ :: _ => ',' :: renderElems vs)
/-- The members of an object as text, separated by commas. -/
def renderMembers : List (String × Value) → List Char
  | [] => []
  | (k, v) :: ms =>
    renderString k ++ ':' :: (v.render ++ (match ms with | [] => [] | _ :: _ => ',' :: renderMembers ms))
end

mutual
/-- The nesting depth of a value: 0 for a scalar, one more than its deepest element or member
for an array or an object. -/
def Value.depth : Value → Nat
  | .null => 0
  | .bool _ => 0
  | .num _ => 0
  | .str _ => 0
  | .arr vs => depthElems vs + 1
  | .obj ms => depthMembers ms + 1
/-- The greatest depth among the elements of an array. -/
def depthElems : List Value → Nat
  | [] => 0
  | v :: vs => max v.depth (depthElems vs)
/-- The greatest depth among the member values of an object. -/
def depthMembers : List (String × Value) → Nat
  | [] => 0
  | (_, v) :: ms => max v.depth (depthMembers ms)
end

/-- Arrays nested in one another, `k + 1` of them: `[]` for `k = 0`, `[[]]` for `k = 1`. -/
def nestedArrays : Nat → Value
  | 0 => .arr []
  | k + 1 => .arr [nestedArrays k]

/-- The members of an object, each with the text of its value. -/
def withText (ms : List (String × Value)) : List (String × RawMessage × Value) :=
  ms.map fun m => (m.1, m.2.render, m.2)

/-- The four characters JSON treats as white space. -/
def isSpace (c : Char) : Bool := c = ' ' || c = '\t' || c = '\r' || c = '\n'

/-- The input past its leading white space. -/
def skipSpace : List Char → List Char
  | [] => []
  | c :: cs => if isSpace c then skipSpace cs else c :: cs

/-- The value of a hexadecimal digit, either case. -/
def hexVal (c : Char) : Option Nat :=
  if 48 ≤ c.toNat ∧ c.toNat < 58 then some (c.toNat - 48)
  else if 97 ≤ c.toNat ∧ c.toNat < 103 then some (c.toNat - 87)
  else if 65 ≤ c.toNat ∧ c.toNat < 71 then some (c.toNat - 55)
  else none

/-- The value of four hexadecimal digits. -/
def hex4 (a b c d : Char) : Option Nat :=
  match hexVal a, hexVal b, hexVal c, hexVal d with
  | some x, some y, some z, some w => some (((x * 16 + y) * 16 + z) * 16 + w)
  | _, _, _, _ => none

/-- The character a one-letter escape stands for. -/
def simpleEscape (c : Char) : Option Char :=
  if c = '"' then some '"'
  else if c = '\\' then some '\\'
  else if c = '/' then some '/'
  else if c = 'b' then some (Char.ofNat 8)
  else if c = 'f' then some (Char.ofNat 12)
  else if c = 'n' then some '\n'
  else if c = 'r' then some '\r'
  else if c = 't' then some '\t'
  else none

/-- An escape `\\uXXXX` at the head of the input that denotes a low surrogate. -/
def lowSurrogate? (cs : List Char) : Option (Nat × List Char) :=
  match cs with
  | b :: u :: h1 :: h2 :: h3 :: h4 :: rest =>
    if b = '\\' ∧ u = 'u' then
      match hex4 h1 h2 h3 h4 with
      | some lo => if 0xDC00 ≤ lo ∧ lo < 0xE000 then some (lo, rest) else none
      | none => none
    else none
  | _ => none

/-- The characters of a string literal after its opening quote, decoded, and the input after
the closing quote.  A control character, an unknown escape or a missing closing quote is a
syntax error.  A surrogate escape that is not the first half of a valid pair decodes to the
replacement character U+FFFD. -/
def parseStringBody : Nat → List Char → Option (List Char × List Char)
  | 0, _ => none
  | _ + 1, [] => none
  | fuel + 1, c :: cs =>
    if c = '"' then some ([], cs)
    else if c = '\\' then
      match cs with
      | [] => none
      | e :: cs1 =>
        if e = 'u' then
          match cs1 with
          | h1 :: h2 :: h3 :: h4 :: cs2 =>
            match hex4 h1 h2 h3 h4 with
            | none => none
            | some r =>
              if 0xD800 ≤ r ∧ r < 0xE000 then
                match (if r < 0xDC00 then lowSurrogate? cs2 else none) with
                | some (lo, cs3) =>
                  (parseStringBody fuel cs3).map fun p =>
                    (Char.ofNat ((r - 0xD800) * 0x400 + (lo - 0xDC00) + 0x10000) :: p.1, p.2)
                | none =>
                  (parseStringBody fuel cs2).map fun p => (Char.ofNat 0xFFFD :: p.1, p.2)
              else (parseStringBody fuel cs2).map fun p => (Char.ofNat r :: p.1, p.2)
          | _ => none
        else
          match simpleEscape e with
          | none => none
          | some ch => (parseStringBody fuel cs1).map fun p => (ch :: p.1, p.2)
    else if c.toNat < 32 then none
    else (parseStringBody fuel cs).map fun p => (c :: p.1, p.2)

/-- A string literal after its opening quote. -/
def parseString (cs : List Char) : Option (String × List Char) :=
  (parseStringBody cs.length cs).map fun p => (String.mk p.1, p.2)

/-- The digits at the head of the input, and the input after them. -/
def takeDigits : List Char → List Digit × List Char
  | [] => ([], [])
  | c :: cs =>
    match digit? c with
    | some d => (d :: (takeDigits cs).1, (takeDigits cs).2)
    | none => ([], c :: cs)

/-- The integer part of a number literal. -/
def parseInt (cs : List Char) : Option (Option (Fin 9 × List Digit) × List Char) :=
  match cs with
  | [] => none
  | c :: r =>
    if c = '0' then some (none, r)
    else if h : 49 ≤ c.toNat ∧ c.toNat < 58 then
      some (some (⟨c.toNat - 49, by omega⟩, (takeDigits r).1), (takeDigits r).2)
    else none

/-- The fraction part of a number literal, if the input goes on with `.`. -/
def parseFrac (cs : List Char) : Option (Option (Digit × List Digit) × List Char) :=
  match cs with
  | [] => some (none, [])
  | c :: r =>
    if c = '.' then
      match r with
      | [] => none
      | d :: r1 =>
        match digit? d with
        | some dd => some (some (dd, (takeDigits r1).1), (takeDigits r1).2)
        | none => none
    else some (none, c :: r)

/-- The sign of an exponent, if there is one. -/
def parseSign (cs : List Char) : Option Bool × List Char :=
  match cs with
  | [] => (none, [])
  | c :: r => if c = '+' then (some false, r) else if c = '-' then (some true, r) else (none, c :: r)

/-- The exponent part of a number literal, if the input goes on with `e` or `E`. -/
def parseExp (cs : List Char) : Option (Option Exponent × List Char) :=
  match cs with
  | [] => some (none, [])
  | c :: r =>
    if c = 'e' ∨ c = 'E' then
      match (parseSign r).2 with
      | [] => none
      | d :: r1 =>
        match digit? d with
        | some dd =>
          some (some ⟨decide (c = 'E'), (parseSign r).1, dd, (takeDigits r1).1⟩, (takeDigits r1).2)
        | none => none
    else some (none, c :: r)

/-- A number literal at the head of the input, and the input after it. -/
def parseNumber (cs : List Char) : Option (Number × List Char) :=
  let neg := match cs with | c :: _ => decide (c = '-') | [] => false
  let cs1 := if neg then cs.drop 1 else cs
  match parseInt cs1 with
  | none => none
  | some (i, cs2) =>
    match parseFrac cs2 with
    | none => none
    | some (f, cs3) =>
      match parseExp cs3 with
      | none => none
      | some (e, cs4) => some (⟨neg, i, f, e⟩, cs4)

/-- The input after the given characters, if it starts with them. -/
def dropLit : List Char → List Char → Option (List Char)
  | [], cs => some cs
  | _ :: _, [] => none
  | l :: ls, c :: cs => if l = c then dropLit ls cs else none

/-- The elements of an array from its first element on, up to and including the closing
bracket; `pv` reads one value.  One unit of fuel per element. -/
def parseElems (pv : List Char → Option (Value × List Char)) :
    Nat → List Char → Option (List Value × List Char)
  | 0, _ => none
  | n + 1, cs =>
    match pv cs with
    | none => none
    | some (v, r) =>
      match skipSpace r with
      | [] => none
      | d :: r1 =>
        if d = ',' then
          match parseElems pv n (skipSpace r1) with
          | none => none
          | some (vs, r2) => some (v :: vs, r2)
        else if d = ']' then some ([v], r1)
        else none

/-- An array after its opening bracket. -/
def parseArray (pv : List Char → Option (Value × List Char)) (r : List Char) :
    Option (List Value × List Char) :=
  match skipSpace r with
  | [] => none
  | c :: r1 => if c = ']' then some ([], r1) else parseElems pv (c :: r1).length (c :: r1)

/-- The members of an object from its first key on, up to and including the closing brace;
`pv` reads one value.  Each member comes with the text of its value as it stands in the input.
One unit of fuel per member. -/
def parseMembers (pv : List Char → Option (Value × List Char)) :
    Nat → List Char → Option (List (String × RawMessage × Value) × List Char)
  | 0, _ => none
  | n + 1, cs =>
    match cs with
    | [] => none
    | q :: r =>
      if q = '"' then
        match parseString r with
        | none => none
        | some (k, r1) =>
          match skipSpace r1 with
          | [] => none
          | col :: r2 =>
            if col = ':' then
              match pv (skipSpace r2) with
              | none => none
              | some (v, r4) =>
                match skipSpace r4 with
                | [] => none
                | d :: r5 =>
                  if d = ',' then
                    match parseMembers pv n (skipSpace r5) with
                    | none => none
                    | some (ms, r6) =>
                      some ((k, (skipSpace r2).take ((skipSpace r2).length - r4.length), v) :: ms, r6)
                  else if d = '}' then
                    some ([(k, (skipSpace r2).take ((skipSpace r2).length - r4.length), v)], r5)
                  else none
            else none
      else none

/-- An object after its opening brace. -/
def parseObject (pv : List Char → Option (Value × List Char)) (r : List Char) :
    Option (List (String × RawMessage × Value) × List Char) :=
  match skipSpace r with
  | [] => none
  | c :: r1 => if c = '}' then some ([], r1) else parseMembers pv (c :: r1).length (c :: r1)

/-- The nesting limit of `encoding/json` (`maxNestingDepth` in its scanner): an input in which
more than 10000 arrays and objects are open at once is a syntax error (`exceeded max depth`). -/
def maxNestingDepth : Nat := 10000

/-- A string, `true`, `false`, `null` or a number at the head of the input, and the input
after it. -/
def parseScalar (cs : List Char) : Option (Value × List Char) :=
  match cs with
  | [] => none
  | c :: r =>
    if c = '"' then
      (parseString r).map fun p => (.str p.1, p.2)
    else if c = 't' then (dropLit ['r', 'u', 'e'] r).map fun r2 => (.bool true, r2)
    else if c = 'f' then (dropLit ['a', 'l', 's', 'e'] r).map fun r2 => (.bool false, r2)
    else if c = 'n' then (dropLit ['u', 'l', 'l'] r).map fun r2 => (.null, r2)
    else (parseNumber (c :: r)).map fun p => (.num p.1, p.2)

/-- A value at the head of the input (no leading white space), and the input after it.
`depth` is the number of arrays and objects that may still be opened: opening one uses one
unit, and with none left an opening bracket or brace is a syntax error. -/
def parseValue : Nat → List Char → Option (Value × List Char)
  | 0, cs =>
    match cs with
    | [] => none
    | c :: r => if c = '{' ∨ c = '[' then none else parseScalar (c :: r)
  | depth + 1, cs =>
    match cs with
    | [] => none
    | c :: r =>
      if c = '{' then
        (parseObject (parseValue depth) r).map fun p =>
          (.obj (p.1.map fun m => (m.1, m.2.2)), p.2)
      else if c = '[' then
        (parseArray (parseValue depth) r).map fun p => (.arr p.1, p.2)
      else parseScalar (c :: r)

/-- A whole input as one JSON value: white space, a value nested no deeper than
`maxNestingDepth`, white space. -/
def parseDocument (body : RawMessage) : Option Value :=
  match parseValue maxNestingDepth (skipSpace body) with
  | some (v, r) => if skipSpace r = [] then some v else none
  | none => none


/-! ### Decoding into the structs of `client.go` -/

/-- Case folding of a key character, as far as it can matter for an ASCII field name:
ASCII letters fold to upper case, and so do the two letters outside ASCII whose fold is an ASCII
letter (U+017F and U+212A). -/
def foldChar (c : Char) : Char :=
  if 97 ≤ c.toNat ∧ c.toNat < 123 then Char.ofNat (c.toNat - 32)
  else if c.toNat = 0x17F then 'S'
  else if c.toNat = 0x212A then 'K'
  else c

/-- Whether an object key selects the struct field tagged `name`: the names are equal, or
equal up to case. -/
def keyMatches (key name : String) : Bool :=
  key.data.map foldChar = name.data.map foldChar

/-- A JSON value stored into a `string` field holding `cur`. -/
def decodeString (v : Value) (cur : String) : Except Err String :=
  match v with
  | .str s => .ok s
  | .null => .ok cur
  | _ => .error (.decode "cannot unmarshal into Go value of type string")

/-- A JSON value stored into a `*string` field. -/
def decodeStringPtr (v : Value) : Except Err (Option String) :=
  match v with
  | .str s => .ok (some s)
  | .null => .ok none
  | _ => .error (.decode "cannot unmarshal into Go value of type string")

/-- A JSON value stored into a `float64` field holding `cur`; `pf` is `strconv.ParseFloat`
(with bit size 64) on a number literal, `none` when the number is out of range. -/
def decodeFloat (pf : List Char → Option Float64) (v : Value) (cur : Float64) :
    Except Err Float64 :=
  match v with
  | .num n =>
    match pf n.render with
    | some f => .ok f
    | none => .error (.decode "cannot unmarshal number into Go value of type float64")
  | .null => .ok cur
  | _ => .error (.decode "cannot unmarshal into Go value of type float64")

/-- A JSON value stored into a `*float64` field. -/
def decodeFloatPtr (pf : List Char → Option Float64) (v : Value) :
    Except Err (Option Float64) :=
  match v with
  | .num n =>
    match pf n.render with
    | some f => .ok (some f)
    | none => .error (.decode "cannot unmarshal number into Go value of type float64")
  | .null => .ok none
  | _ => .error (.decode "cannot unmarshal into Go value of type float64")

/-- A JSON value stored into a `bool` field holding `cur`. -/
def decodeBool (v : Value) (cur : Bool) : Except Err Bool :=
  match v with
  | .bool b => .ok b
  | .null => .ok cur
  | _ => .error (.decode "cannot unmarshal into Go value of type bool")

/-- A JSON value stored into a struct: an object is decoded member by member by `fields`,
`null` leaves the struct as it is, anything else is a type error. -/
def decodeStruct {S : Type} (fields : List (String × Value) → S → Except Err S)
    (v : Value) (cur : S) : Except Err S :=
  match v with
  | .obj ms => fields ms cur
  | .null => .ok cur
  | _ => .error (.decode "cannot unmarshal into Go value of struct type")

/-- The members of an object stored into a `ConfidenceMeta`. -/
def confidenceFields (pf : List Char → Option Float64) :
    List (String × Value) → ConfidenceMeta → Except Err ConfidenceMeta
  | [], m => .ok m
  | (k, v) :: rest, m =>
    if keyMatches k "level" then
      match decodeString v m.Level with
      | .ok s => confidenceFields pf rest { m with Level := s }
      | .error e => .error e
    else if keyMatches k "score" then
      match decodeFloat pf v m.Score with
      | .ok f => confidenceFields pf rest { m with Score := f }
      | .error e => .error e
    else confidenceFields pf rest m

/-- The members of an object stored into a `ProvenanceMeta`. -/
def provenanceFields : List (String × Value) → ProvenanceMeta → Except Err ProvenanceMeta
  | [], m => .ok m
  | (k, v) :: rest, m =>
    if keyMatches k "snapshot_id" then
      match decodeStringPtr v with
      | .ok s => provenanceFields rest { m with SnapshotID := s }
      | .error e => .error e
    else if keyMatches k "dataset_hash" then
      match decodeStringPtr v with
      | .ok s => provenanceFields rest { m with DatasetHash := s }
      | .error e => .error e
    else if keyMatches k "rules_hash" then
      match decodeStringPtr v with
      | .ok s => provenanceFields rest { m with RulesHash := s }
      | .error e => .error e
    else if keyMatches k "verify_url" then
      match decodeStringPtr v with
      | .ok s => provenanceFields rest { m with VerifyURL := s }
      | .error e => .error e
    else if keyMatches k "signature" then
      match decodeStringPtr v with
      | .ok s => provenanceFields rest { m with Signature := s }
      | .error e => .error e
    else provenanceFields rest m

/-- The members of an object stored into an `UncertaintyMeta`. -/
def uncertaintyFields (pf : List Char → Option Float64) :
    List (String × Value) → UncertaintyMeta → Except Err UncertaintyMeta
  | [], m => .ok m
  | (k, v) :: rest, m =>
    if keyMatches k "interval_hours" then
      match decodeFloatPtr pf v with
      | .ok f => uncertaintyFields pf rest { m with IntervalHours := f }
      | .error e => .error e
    else if keyMatches k "boundary_risk" then
      match decodeString v m.BoundaryRisk with
      | .ok s => uncertaintyFields pf rest { m with BoundaryRisk := s }
      | .error e => .error e
    else uncertaintyFields pf rest m

/-- The members of an object stored into a `PolicyMeta`. -/
def policyFields : List (String × Value) → PolicyMeta → Except Err PolicyMeta
  | [], m => .ok m
  | (k, v) :: rest, m =>
    if keyMatches k "profile" then
      match decodeString v m.Profile with
      | .ok s => policyFields rest { m with Profile := s }
      | .error e => .error e
    else if keyMatches k "jurisdiction" then
      match decodeString v m.Jurisdiction with
      | .ok s => policyFields rest { m with Jurisdiction := s }
      | .error e => .error e
    else if keyMatches k "advisory" then
      match decodeBool v m.Advisory with
      | .ok b => policyFields rest { m with Advisory := b }
      | .error e => .error e
    else policyFields rest m

/-- The members of an object stored into a `ResponseMeta`. -/
def metaFields (pf : List Char → Option Float64) :
    List (String × Value) → ResponseMeta → Except Err ResponseMeta
  | [], m => .ok m
  | (k, v) :: rest, m =>
    if keyMatches k "confidence" then
      match decodeStruct (confidenceFields pf) v m.Confidence with
      | .ok x => metaFields pf rest { m with Confidence := x }
      | .error e => .error e
    else if keyMatches k "method" then
      match decodeString v m.Method with
      | .ok s => metaFields pf rest { m with Method := s }
      | .error e => .error e
    else if keyMatches k "provenance" then
      match decodeStruct provenanceFields v m.Provenance with
      | .ok x => metaFields pf rest { m with Provenance := x }
      | .error e => .error e
    else if keyMatches k "uncertainty" then
      match decodeStruct (uncertaintyFields pf) v m.Uncertainty with
      | .ok x => metaFields pf rest { m with Uncertainty := x }
      | .error e => .error e
    else if keyMatches k "trace_id" then
      match decodeStringPtr v with
      | .ok s => metaFields pf rest { m with TraceID := s }
      | .error e => .error e
    else if keyMatches k "policy" then
      match decodeStruct policyFields v m.Policy with
      | .ok x => metaFields pf rest { m with Policy := x }
      | .error e => .error e
    else metaFields pf rest m

/-- The members of the top-level object stored into an `Envelope`.  The field `Data` is a
`json.RawMessage`: it receives the text of the member's value as it stands in the input. -/
def envelopeFields (pf : List Char → Option Float64) :
    List (String × RawMessage × Value) → Envelope → Except Err Envelope
  | [], env => .ok env
  | (k, raw, v) :: rest, env =>
    if keyMatches k "data" then envelopeFields pf rest { env with Data := raw }
    else if keyMatches k "meta" then
      match decodeStruct (metaFields pf) v env.Meta with
      | .ok x => envelopeFields pf rest { env with Meta := x }
      | .error e => .error e
    else envelopeFields pf rest env

/-- The call `json.Unmarshal(body, &env)` for a zero `Envelope`: the body has to be one JSON
value nested no deeper than `maxNestingDepth` (a syntax error otherwise); an object, which is
itself one level of nesting, is stored field by field, `null` stores nothing, and any other
value is a type error. -/
def unmarshalEnvelope (pf : List Char → Option Float64) (body : RawMessage) :
    Except Err Envelope :=
  match skipSpace body with
  | [] => .error (.decode "unexpected end of JSON input")
  | c :: r =>
    if c = '{' then
      match parseObject (parseValue (maxNestingDepth - 1)) r with
      | some (ms, r2) =>
        if skipSpace r2 = [] then envelopeFields pf ms Envelope.zero
        else .error (.decode "invalid character after top-level value")
      | none => .error (.decode "invalid character")
    else
      match parseDocument body with
      | none => .error (.decode "invalid character")
      | some .null => .ok Envelope.zero
      | some _ => .error (.decode "cannot unmarshal into Go value of type parva.Envelope")

/-- The call `json.Unmarshal(data, &out)` for `out` a `json.RawMessage`: the data has to be
one JSON value nested no deeper than `maxNestingDepth` (a syntax error otherwise), and `out`
receives the text of that value, which is the data without the white space around it. -/
def unmarshalRawMessage (data : RawMessage) : Except Err RawMessage :=
  match parseValue maxNestingDepth (skipSpace data) with
  | some (_, r) =>
    if skipSpace r = [] then .ok ((skipSpace data).take ((skipSpace data).length - r.length))
    else .error (.decode "invalid character after top-level value")
  | none => .error (.decode "invalid character")

/-! ### The structured body on the wire -/

/-- An optional string on the wire: `string|null`. -/
def optString : Option String → Value
  | some s => .str s
  | none => .null

/-- The `meta` object of the response envelope's wire shape, for a metadata record.  `scoreLit` and `hoursLit` are
the number literals written for `confidence.score` and (when present) for
`uncertainty.interval_hours`. -/
def metaValue (m : ResponseMeta) (scoreLit hoursLit : Number) : Value :=
  .obj
    [("confidence", .obj [("level", .str m.Confidence.Level), ("score", .num scoreLit)]),
     ("method", .str m.Method),
     ("provenance", .obj
       [("snapshot_id", optString m.Provenance.SnapshotID),
        ("dataset_hash", optString m.Provenance.DatasetHash),
        ("rules_hash", optString m.Provenance.RulesHash),
        ("verify_url", optString m.Provenance.VerifyURL),
        ("signature", optString m.Provenance.Signature)]),
     ("uncertainty", .obj
       [("interval_hours",
          match m.Uncertainty.IntervalHours with
          | some _ => .num hoursLit
          | none => .null),
        ("boundary_risk", .str m.Uncertainty.BoundaryRisk)]),
     ("trace_id", optString m.TraceID),
     ("policy", .obj
       [("profile", .str m.Policy.Profile),
        ("jurisdiction", .str m.Policy.Jurisdiction),
        ("advisory", .bool m.Policy.Advisory)])]

/-- The serialized structured body `{"data": d, "meta": m}` of the response envelope's wire
shape, written in compact form. -/
def structuredBody (d : Value) (m : ResponseMeta) (scoreLit hoursLit : Number) : RawMessage :=
  (Value.obj [("data", d), ("meta", metaValue m scoreLit hoursLit)]).render

end Json

/-! ## A concrete world, for evaluating the operations on concrete inputs -/

/-- The function `strconv.ParseFloat` on the number literals of the examples below (`0`,
`0.5`, `0.75` and `1`, each of which is a `float64` exactly); no other literal is needed. -/
def exampleParseFloat (lit : List Char) : Option Float64 :=
  if lit = ['0'] then some Float64.zero
  else if lit = ['0', '.', '5'] then some Float64.half
  else if lit = ['0', '.', '7', '5'] then some ⟨0x3FE8000000000000⟩
  else if lit = ['1'] then some ⟨0x3FF0000000000000⟩
  else none

/-- A world for URLs without a query and without characters to escape, whose server answers
the `k`-th request with the `k`-th entry of `script` (and refuses the connection after that). -/
def exampleWorld (script : List Exchange) : World :=
  { urlParse := fun s => .ok ⟨s, ""⟩
    urlQuery := fun _ => []
    queryEscape := fun s => s
    jsonUnmarshal := Json.unmarshalEnvelope exampleParseFloat
    exchange := fun _ k => script.getD k (.doErr (.transport "connection refused")) }

/-- The client `NewClient("")` returns: the default base address, 2 retries, 300ms backoff. -/
def defaultClient : Client := NewClient ""

/-- The metadata of the example structured response. -/
def exampleMeta : ResponseMeta :=
  { Confidence := ⟨"computed", ⟨0x3FE8000000000000⟩⟩
    Method := "ephemeris"
    Provenance := ⟨some "snap-1", none, none, none, none⟩
    Uncertainty := ⟨some ⟨0x3FF0000000000000⟩, "low"⟩
    TraceID := some "tr-9"
    Policy := ⟨"np-mainstream", "NP", true⟩ }

/-- The number literal `0.75`. -/
def lit075 : Json.Number := ⟨false, none, some (7, [5]), none⟩

/-- The number literal `1`. -/
def lit1 : Json.Number := ⟨false, some (0, []), none, none⟩

/-- The unwrapped legacy body of the example: an object without `data` and `meta`. -/
def legacyBody : RawMessage := "\x7b\"bs_date\":\"2081-09-30\"\x7d".toList

/-- A server that answers 503 twice and then 200 with the legacy body. -/
def flakyWorld : World :=
  exampleWorld [.response 503 ['a'], .response 503 ['b'], .response 200 legacyBody]

/-- A server that answers every request with 503. -/
def downWorld : World :=
  exampleWorld [.response 503 ['a'], .response 503 ['b'], .response 503 ['c']]

/-- A client with 2 retries whose base backoff is `2^62` nanoseconds. -/
def longBackoffClient : Client :=
  { BaseURL := "http://localhost:8000/v5/api", Retries := 2, Backoff := 4611686018427387904 }

/-! # Theorems -/

/-! ## 64-bit arithmetic -/

theorem wrap64_of_range (x : Int) (h1 : -2 ^ 63 ≤ x) (h2 : x ≤ maxInt64) : wrap64 x = x := by
  unfold wrap64
  unfold maxInt64 at h2
  norm_num at h1 h2 ⊢
  omega

theorem wrap64_pow_lt (n : Nat) (h : n < 63) : wrap64 (2 ^ n) = 2 ^ n := by
  apply wrap64_of_range
  · have : (0 : Int) ≤ 2 ^ n := by positivity
    linarith
  · unfold maxInt64
    have : (2 : Int) ^ n < 2 ^ 63 := pow_lt_pow_right₀ (by norm_num) h
    omega

theorem wrap64_pow_63 : wrap64 (2 ^ 63) = -2 ^ 63 := by
  unfold wrap64; norm_num

theorem wrap64_pow_ge (n : Nat) (h : 64 ≤ n) : wrap64 (2 ^ n) = 0 := by
  unfold wrap64
  obtain ⟨k, rfl⟩ : ∃ k, n = 64 + k := ⟨n - 64, by omega⟩
  rw [pow_add]
  have : ((2 : Int) ^ 64 * 2 ^ k + 2 ^ 63) % 2 ^ 64 = 2 ^ 63 := by
    rw [Int.add_comm, Int.add_mul_emod_self_left]
    norm_num
  rw [this]; ring

/-! ## The retry loop -/

theorem Run.afterAll_nil (r : Run) : Run.afterAll [] r = r := rfl

theorem Run.after_afterAll (e : Event) (es : List Event) (r : Run) :
    Run.after e (Run.afterAll es r) = Run.afterAll (e :: es) r := rfl

/-- One failed attempt with attempts remaining: the request, the backoff sleep, and the loop
goes on with the next attempt. -/
theorem retryLoop_failed_round (w : World) (c : Client) (ctx : Context) (u : URL) (fuel : Nat)
    (st : LoopState) (a : Nat) (e : Err) (hatt : st.attempt = a) (hsent : st.sent = a)
    (hlt : (a : Int) < c.Retries)
    (hmax : c.Retries ≤ maxInt64) (hc : st.cancelled = false)
    (hex : (w.exchange u st.sent).transientErr = some e) :
    retryLoop w c ctx u (fuel + 1) st
      = Run.afterAll (failedRounds c a 1)
          (retryLoop w c ctx u fuel
            { attempt := (a : Int) + 1, lastErr := some e, sent := a + 1,
              slept := st.slept + 1, cancelled := (ctx.cancelInSleep == some st.slept) }) := by
  have hw : wrap64 ((a : Int) + 1) = (a : Int) + 1 := by
    apply wrap64_of_range
    · have : (0 : Int) ≤ a := Int.natCast_nonneg a
      norm_num; omega
    · omega
  have hle : st.attempt ≤ c.Retries := by omega
  have hnn : ¬ (a : Int) < 0 := by omega
  rw [retryLoop]
  simp only [hle, if_true, hc, Bool.false_eq_true, if_false]
  cases hx : w.exchange u st.sent with
  | reqErr e2 => simp [hx, Exchange.transientErr] at hex
  | doErr e2 =>
    simp only [hx, Exchange.transientErr, Option.some.injEq] at hex
    subst hex
    simp [backoffThen, hlt, hsent, backoffDelay, hatt, hnn, hw, Run.after, Run.afterAll,
      failedRounds, hc]
  | readErr e2 =>
    simp only [hx, Exchange.transientErr, Option.some.injEq] at hex
    subst hex
    simp [backoffThen, hlt, hsent, backoffDelay, hatt, hnn, hw, Run.after, Run.afterAll,
      failedRounds, hc]
  | response status body =>
    simp only [hx, Exchange.transientErr] at hex
    split at hex
    · rename_i h500
      simp only [Option.some.injEq] at hex
      subst hex
      have h1 : ¬ (200 ≤ status ∧ status < 300) := by omega
      have h2 : ¬ (status < 500 ∨ c.Retries ≤ (a : Int)) := by omega
      simp [h1, h2, backoffThen, hlt, hsent, backoffDelay, hatt, hnn, hw, Run.after,
        Run.afterAll, failedRounds, hc]
    · simp at hex

/-- Failed attempts in a row while attempts remain and the context stays live: `k` rounds of
request and backoff sleep, after which the loop stands at attempt `a + k`. -/
theorem retryLoop_failed_rounds (w : World) (c : Client) (ctx : Context) (u : URL)
    (hmax : c.Retries ≤ maxInt64) (fuel : Nat) :
    ∀ (k a : Nat) (st : LoopState), st.attempt = a → st.sent = a →
      st.cancelled = false → ((a + k : Nat) : Int) ≤ c.Retries →
      (∀ i, a ≤ i → i < a + k → (w.exchange u i).transientErr ≠ none) →
      (∀ j, j < k → ctx.cancelInSleep ≠ some (st.slept + j)) →
      ∃ st2 : LoopState, st2.attempt = ((a + k : Nat) : Int) ∧ st2.sent = a + k ∧
        st2.cancelled = false ∧ st2.slept = st.slept + k ∧
        (k = 0 → st2 = st) ∧
        (∀ j, k = j + 1 → st2.lastErr = (w.exchange u (a + j)).transientErr) ∧
        retryLoop w c ctx u (fuel + k) st
          = Run.afterAll (failedRounds c a k) (retryLoop w c ctx u fuel st2) := by
  intro k
  induction k with
  | zero =>
    intro a st hatt hsent hc _ _ _
    exact ⟨st, by simpa using hatt, by simpa using hsent, hc, rfl, fun _ => rfl,
      fun j hj => by omega, by simp [failedRounds, Run.afterAll]⟩
  | succ k ih =>
    intro a st hatt hsent hc hle hex hctx
    have hlt : (a : Int) < c.Retries := by push_cast at hle; omega
    obtain ⟨e, he⟩ : ∃ e, (w.exchange u st.sent).transientErr = some e := by
      have := hex a (le_refl a) (by omega)
      rw [hsent]
      exact Option.ne_none_iff_exists'.mp this
    have hstep := retryLoop_failed_round w c ctx u (fuel + k) st a e hatt hsent hlt hmax hc he
    have hlive : (ctx.cancelInSleep == some st.slept) = false := by
      have := hctx 0 (by omega)
      simpa using this
    rw [hlive] at hstep
    obtain ⟨st2, h1, h2, h3, h4, h5, h6, h7⟩ :=
      ih (a + 1) { attempt := (a : Int) + 1, lastErr := some e, sent := a + 1,
                   slept := st.slept + 1, cancelled := false }
        (by push_cast; rfl) rfl rfl (by push_cast at hle ⊢; omega)
        (fun i hi1 hi2 => hex i (by omega) (by omega))
        (fun j hj => by
          have := hctx (j + 1) (by omega)
          simpa [Nat.add_assoc, Nat.add_comm 1 j] using this)
    refine ⟨st2, ?_, ?_, h3, ?_, ?_, ?_, ?_⟩
    · rw [h1]; push_cast; omega
    · rw [h2]; omega
    · rw [h4]; simp; omega
    · intro h; omega
    · intro j hj
      cases k with
      | zero =>
        have hj0 : j = 0 := by omega
        subst hj0
        rw [h5 rfl, ← hsent]
        simpa using he.symm
      | succ k2 =>
        have := h6 k2 rfl
        rw [this]
        have hj2 : j = k2 + 1 := by omega
        subst hj2
        congr 2
        omega
    · have hfuel : fuel + (k + 1) = (fuel + k) + 1 := by omega
      rw [hfuel, hstep, h7]
      simp [Run.afterAll, failedRounds]

/-- A 2xx response ends the call with what `parseEnvelope` makes of the body. -/
theorem retryLoop_success (w : World) (c : Client) (ctx : Context) (u : URL) (fuel : Nat)
    (st : LoopState) (status : Int) (body : RawMessage)
    (hle : st.attempt ≤ c.Retries) (hc : st.cancelled = false)
    (hex : w.exchange u st.sent = .response status body)
    (h2xx : 200 ≤ status ∧ status < 300) :
    retryLoop w c ctx u (fuel + 1) st
      = Run.after (.request st.sent)
          (match parseEnvelope w.jsonUnmarshal body with
            | .error parseErr => ⟨[], .fail parseErr⟩
            | .ok env => ⟨[], .ok env⟩) := by
  rw [retryLoop]
  simp [hle, hc, hex, h2xx]

/-- A response that is not 2xx ends the call at once when it is below 500 or no attempt
remains. -/
theorem retryLoop_api_fail (w : World) (c : Client) (ctx : Context) (u : URL) (fuel : Nat)
    (st : LoopState) (status : Int) (body : RawMessage)
    (hle : st.attempt ≤ c.Retries) (hc : st.cancelled = false)
    (hex : w.exchange u st.sent = .response status body)
    (h2xx : ¬ (200 ≤ status ∧ status < 300))
    (hlast : status < 500 ∨ st.attempt ≥ c.Retries) :
    retryLoop w c ctx u (fuel + 1) st
      = ⟨[.request st.sent], .fail (.api status body)⟩ := by
  rw [retryLoop]
  simp only [hle, if_true, hc, Bool.false_eq_true, if_false, hex, h2xx, hlast]
  rfl

/-- The last attempt fails with a transient error: the call ends with that error, without a
further sleep. -/
theorem retryLoop_last_failed (w : World) (c : Client) (ctx : Context) (u : URL) (fuel : Nat)
    (st : LoopState) (e : Err) (hnn : 0 ≤ st.attempt)
    (hatt : st.attempt = c.Retries) (hmax : c.Retries < maxInt64)
    (hex : (if st.cancelled then Exchange.doErr Err.canceled else w.exchange u st.sent).transientErr
      = some e) :
    retryLoop w c ctx u (fuel + 2) st = ⟨[.request st.sent], .fail e⟩ := by
  have hw : wrap64 (st.attempt + 1) = st.attempt + 1 := by
    apply wrap64_of_range
    · norm_num; omega
    · omega
  have hle : st.attempt ≤ c.Retries := by omega
  have hnlt : ¬ st.attempt < c.Retries := by omega
  have hout : ¬ st.attempt + 1 ≤ c.Retries := by omega
  rw [retryLoop]
  simp only [hle, if_true]
  cases hx : (if st.cancelled then Exchange.doErr Err.canceled else w.exchange u st.sent) with
  | reqErr e2 => simp [hx, Exchange.transientErr] at hex
  | doErr e2 =>
    simp only [hx, Exchange.transientErr, Option.some.injEq] at hex
    subst hex
    simp only [backoffThen, hnlt, if_false, hw]
    rw [retryLoop]
    simp [hout, Run.after]
  | readErr e2 =>
    simp only [hx, Exchange.transientErr, Option.some.injEq] at hex
    subst hex
    simp only [backoffThen, hnlt, if_false, hw]
    rw [retryLoop]
    simp [hout, Run.after]
  | response status body =>
    simp only [hx, Exchange.transientErr] at hex
    split at hex
    · rename_i h500
      simp only [Option.some.injEq] at hex
      subst hex
      have h1 : ¬ (200 ≤ status ∧ status < 300) := by omega
      have h2 : (status < 500 ∨ st.attempt ≥ c.Retries) := Or.inr (by omega)
      simp [h1, h2, Run.after]
    · simp at hex

/-- Once the context is cancelled every remaining attempt fails with the cancellation error,
and so does the call. -/
theorem retryLoop_cancelled (w : World) (c : Client) (ctx : Context) (u : URL)
    (hmax : c.Retries < maxInt64) :
    ∀ (n : Nat) (fuel : Nat) (st : LoopState), st.cancelled = true → 0 ≤ st.attempt →
      st.attempt + n = c.Retries →
      (retryLoop w c ctx u (fuel + n + 2) st).halt = .fail .canceled := by
  intro n
  induction n with
  | zero =>
    intro fuel st hc hnn hatt
    have := retryLoop_last_failed w c ctx u fuel st .canceled hnn (by simpa using hatt) hmax
      (by simp [hc, Exchange.transientErr])
    simp only [Nat.add_zero]
    rw [this]
  | succ n ih =>
    intro fuel st hc hnn hatt
    have hlt : st.attempt < c.Retries := by push_cast at hatt; omega
    have hle : st.attempt ≤ c.Retries := by omega
    have hw : wrap64 (st.attempt + 1) = st.attempt + 1 := by
      apply wrap64_of_range
      · norm_num; omega
      · omega
    have hnn2 : ¬ st.attempt < 0 := by omega
    have hfuel : fuel + (n + 1) + 2 = (fuel + n + 2) + 1 := by omega
    rw [hfuel, retryLoop]
    simp only [hle, if_true, hc, backoffThen, hlt, backoffDelay, hnn2, if_false, hw,
      Bool.true_or, Run.after]
    exact ih fuel _ rfl (by simp; omega) (by simp; push_cast at hatt; omega)

/-- The loop never runs out of the fuel `getWithContext` gives it: with the counter in the
`int` range, at most `Retries + 2` iterations are entered (the last one only after the counter
has wrapped around). -/
theorem retryLoop_halts (w : World) (c : Client) (ctx : Context) (u : URL)
    (hmax : c.Retries ≤ maxInt64) :
    ∀ (fuel : Nat) (st : LoopState), 1 ≤ fuel →
      (0 ≤ st.attempt → st.attempt ≤ c.Retries → (c.Retries - st.attempt).toNat + 2 ≤ fuel) →
      (st.attempt < 0 → st.attempt < c.Retries) →
      (retryLoop w c ctx u fuel st).halt ≠ .outOfFuel := by
  intro fuel
  induction fuel with
  | zero => intro st h; omega
  | succ fuel ih =>
    intro st _ hfuel hneg
    have hback : ∀ st2 : LoopState, st2.attempt = st.attempt →
        st.attempt ≤ c.Retries →
        (backoffThen c ctx st2 (retryLoop w c ctx u fuel)).halt ≠ .outOfFuel := by
      intro st2 hatt hle
      unfold backoffThen
      rw [hatt]
      by_cases hlt : st.attempt < c.Retries
      · simp only [hlt, if_true]
        by_cases hn : st.attempt < 0
        · simp [backoffDelay, hatt, hn]
        · have hw : wrap64 (st.attempt + 1) = st.attempt + 1 := by
            apply wrap64_of_range
            · norm_num; omega
            · omega
          simp only [backoffDelay, hatt, hn, if_false, Run.after, hw]
          have := hfuel (by omega) hle
          exact ih _ (by omega) (fun _ _ => by simp only; omega) (fun h => by simp only at h; omega)
      · simp only [hlt, if_false]
        have heq : st.attempt = c.Retries := by omega
        have hnn : 0 ≤ st.attempt := by
          by_contra hn
          exact hlt (hneg (by omega))
        have := hfuel hnn hle
        by_cases hm : st.attempt = maxInt64
        · have hw : wrap64 (st.attempt + 1) = -2 ^ 63 := by
            rw [hm]; unfold wrap64 maxInt64; norm_num
          rw [hw]
          exact ih _ (by omega) (fun h => by simp only at h; norm_num at h)
            (fun _ => by
              simp only
              have : c.Retries = maxInt64 := by omega
              rw [this]; unfold maxInt64; norm_num)
        · have hw : wrap64 (st.attempt + 1) = st.attempt + 1 := by
            apply wrap64_of_range
            · norm_num; omega
            · omega
          rw [hw]
          exact ih _ (by omega) (fun _ h => by simp only at h; omega)
            (fun h => by simp only at h; omega)
    rw [retryLoop]
    by_cases hle : st.attempt ≤ c.Retries
    · simp only [hle, if_true]
      split
      · simp
      · simp only [Run.after]
        exact hback _ rfl hle
      · simp only [Run.after]
        exact hback _ rfl hle
      · simp only [Run.after]
        split
        · split <;> simp
        · split
          · simp
          · exact hback _ rfl hle
    · simp only [hle, if_false]
      split <;> simp

/-- The call always ends by returning or, once the counter has wrapped, by a panic: the
embedding's fuel is never the reason a run stops. -/
theorem getWithContext_halts (w : World) (c : Client) (ctx : Context) (path : String)
    (params : List (String × String)) (hmax : c.Retries ≤ maxInt64) :
    (getWithContext w c ctx path params).halt ≠ .outOfFuel := by
  unfold getWithContext
  cases requestURL w c path params with
  | error e => simp
  | ok u =>
    simp only
    apply retryLoop_halts w c ctx u hmax
    · omega
    · intro _ h
      simp only at h ⊢
      omega
    · intro h
      simp only at h
      omega


theorem Run.attempts_afterAll (es : List Event) (r : Run) :
    (Run.afterAll es r).attempts = (Run.mk es r.halt).attempts + r.attempts := by
  simp [Run.afterAll, Run.attempts, List.filter_append]

theorem Run.sleeps_afterAll (es : List Event) (r : Run) :
    (Run.afterAll es r).sleeps = (Run.mk es r.halt).sleeps ++ r.sleeps := by
  simp [Run.afterAll, Run.sleeps, List.filterMap_append]

theorem attempts_failedRounds (c : Client) (h : Halt) :
    ∀ (k a : Nat), (Run.mk (failedRounds c a k) h).attempts = k := by
  intro k
  induction k with
  | zero => intro a; simp [failedRounds, Run.attempts]
  | succ k ih =>
    intro a
    have := ih (a + 1)
    simp only [Run.attempts, failedRounds] at this ⊢
    simp [List.filter_cons, this]

theorem sleeps_failedRounds (c : Client) (h : Halt) :
    ∀ (k a : Nat), (Run.mk (failedRounds c a k) h).sleeps
      = (List.range k).map fun j => wrap64 (c.Backoff * wrap64 (2 ^ (a + j))) := by
  intro k
  induction k with
  | zero => intro a; simp [failedRounds, Run.sleeps]
  | succ k ih =>
    intro a
    have := ih (a + 1)
    simp only [Run.sleeps, failedRounds] at this ⊢
    simp only [List.filterMap_cons, this, List.range_succ_eq_map, List.map_cons, List.map_map]
    simp only [Nat.add_zero, List.cons.injEq, true_and]
    apply List.map_congr_left
    intro j _
    simp only [Function.comp, Nat.succ_eq_add_one]
    have : a + 1 + j = a + (j + 1) := by omega
    rw [this]

theorem parseEnvelope_ok (unmarshal : RawMessage → Except Err Envelope) (body : RawMessage) :
    ∃ env, parseEnvelope unmarshal body = .ok env := by
  unfold parseEnvelope
  cases unmarshal body with
  | error e => exact ⟨_, rfl⟩
  | ok env =>
    by_cases h : env.Data.length > 0
    · exact ⟨env, by simp [h]⟩
    · exact ⟨compatEnvelope body, by simp [h]⟩

/-- C1: N consecutive 503 responses followed by a 200.  With `Retries ≥ N` the call makes
exactly `N + 1` attempts and returns the envelope `parseEnvelope` makes of the 200 response's
body; with `Retries < N` it makes exactly `Retries + 1` attempts and fails with the error that
carries status 503 and the body of the last 503 response received. -/
theorem getWithContext_503_then_200 (w : World) (c : Client) (path : String)
    (params : List (String × String)) (u : URL) (N : Nat) (b : Nat → RawMessage)
    (body : RawMessage)
    (hu : requestURL w c path params = .ok u)
    (hR : 0 ≤ c.Retries) (hmax : c.Retries ≤ maxInt64)
    (h503 : ∀ i, i < N → w.exchange u i = .response 503 (b i))
    (h200 : w.exchange u N = .response 200 body) :
    ((N : Int) ≤ c.Retries →
      (getWithContext w c Context.Background path params).attempts = N + 1 ∧
      ∃ env, parseEnvelope w.jsonUnmarshal body = .ok env ∧
        (getWithContext w c Context.Background path params).halt = .ok env) ∧
    (c.Retries < (N : Int) →
      ((getWithContext w c Context.Background path params).attempts : Int) = c.Retries + 1 ∧
      (getWithContext w c Context.Background path params).halt
        = .fail (.api 503 (b c.Retries.toNat))) := by
  obtain ⟨R, hRe⟩ : ∃ R : Nat, c.Retries = R := ⟨c.Retries.toNat, by omega⟩
  have hget : getWithContext w c Context.Background path params
      = retryLoop w c Context.Background u (R + 2) ⟨0, none, 0, 0, false⟩ := by
    simp [getWithContext, hu, hRe]
  rw [hget]
  constructor
  · intro hN
    have hNR : N ≤ R := by omega
    obtain ⟨st2, h1, h2, h3, _, _, _, h7⟩ :=
      retryLoop_failed_rounds w c Context.Background u hmax (R + 2 - N) N 0
        ⟨0, none, 0, 0, false⟩ rfl rfl rfl
        (by simpa using hN)
        (fun i _ hi => by rw [h503 i (by omega)]; simp [Exchange.transientErr])
        (fun j _ => by simp [Context.Background])
    have hfuel : R + 2 = (R + 2 - N) + N := by omega
    have hfuel2 : R + 2 - N = (R + 1 - N) + 1 := by omega
    simp only [Nat.zero_add] at h1 h2
    have hex : w.exchange u st2.sent = .response 200 body := by rw [h2]; exact h200
    have hsucc := retryLoop_success w c Context.Background u (R + 1 - N) st2 200 body
      (by rw [h1]; exact hN) h3 hex (by omega)
    obtain ⟨env, henv⟩ := parseEnvelope_ok w.jsonUnmarshal body
    rw [henv] at hsucc
    rw [hfuel, h7, hfuel2, hsucc]
    refine ⟨?_, env, henv, ?_⟩
    · rw [Run.attempts_afterAll, attempts_failedRounds]
      simp [Run.after, Run.attempts]
    · simp [Run.afterAll, Run.after]
  · intro hN
    have hNR : R < N := by omega
    obtain ⟨st2, h1, h2, h3, _, _, _, h7⟩ :=
      retryLoop_failed_rounds w c Context.Background u hmax 2 R 0
        ⟨0, none, 0, 0, false⟩ rfl rfl rfl
        (by simpa using hRe.ge)
        (fun i _ hi => by rw [h503 i (by omega)]; simp [Exchange.transientErr])
        (fun j _ => by simp [Context.Background])
    simp only [Nat.zero_add] at h1 h2
    have hex : w.exchange u st2.sent = .response 503 (b R) := by rw [h2]; exact h503 R hNR
    have hfail := retryLoop_api_fail w c Context.Background u 1 st2 503 (b R)
      (by rw [h1, hRe]) h3 hex (by omega) (Or.inr (by rw [h1, hRe]))
    have hfuel : R + 2 = 2 + R := by omega
    have hRn : c.Retries.toNat = R := by omega
    rw [hfuel, h7, hfail, hRn]
    refine ⟨?_, ?_⟩
    · rw [Run.attempts_afterAll, attempts_failedRounds, hRe]
      simp [Run.attempts]
    · simp [Run.afterAll]

/-- C2: a 4xx response to the first attempt.  Whatever the retry count and the context, the
call consists of that one attempt, with no backoff sleep, and returns the error that carries the
status and the body. -/
theorem getWithContext_4xx_first_attempt (w : World) (c : Client) (ctx : Context)
    (path : String) (params : List (String × String)) (u : URL) (s : Int) (b : RawMessage)
    (hu : requestURL w c path params = .ok u)
    (hR : 0 ≤ c.Retries) (h4xx : 400 ≤ s ∧ s < 500)
    (hex : w.exchange u 0 = .response s b) :
    getWithContext w c ctx path params = ⟨[.request 0], .fail (.api s b)⟩ ∧
    (getWithContext w c ctx path params).attempts = 1 ∧
    (getWithContext w c ctx path params).sleeps = [] := by
  have hget : getWithContext w c ctx path params
      = ⟨[.request 0], .fail (.api s b)⟩ := by
    simp only [getWithContext, hu]
    have hfuel : c.Retries.toNat + 2 = (c.Retries.toNat + 1) + 1 := by omega
    rw [hfuel]
    exact retryLoop_api_fail w c ctx u _ ⟨0, none, 0, 0, false⟩ s b hR rfl hex (by omega)
      (Or.inl h4xx.2)
  rw [hget]
  exact ⟨rfl, rfl, rfl⟩

/-- C1 at a concrete input: two 503 responses, then 200 with the legacy body, 2 retries. -/
theorem getWithContext_503_then_200_witness :
    (getWithContext flakyWorld defaultClient Context.Background "/calendar/today" []).attempts
      = 2 + 1 ∧
    ∃ env, parseEnvelope flakyWorld.jsonUnmarshal legacyBody = .ok env ∧
      (getWithContext flakyWorld defaultClient Context.Background "/calendar/today" []).halt
        = .ok env :=
  (getWithContext_503_then_200 flakyWorld defaultClient "/calendar/today" []
    ⟨"http://localhost:8000/v5/api/calendar/today", ""⟩ 2
    (fun i => if i = 0 then ['a'] else ['b']) legacyBody rfl (by decide) (by decide)
    (fun i hi => by
      have h : i = 0 ∨ i = 1 := by omega
      rcases h with h | h <;> subst h <;> rfl)
    rfl).1 (by decide)

/-- C2 at a concrete input: a 404 response to the first attempt, 2 retries. -/
theorem getWithContext_4xx_first_attempt_witness :
    getWithContext (exampleWorld [.response 404 ['n', 'o']]) defaultClient Context.Background
        "/calendar/today" []
      = ⟨[.request 0], .fail (.api 404 ['n', 'o'])⟩ :=
  (getWithContext_4xx_first_attempt (exampleWorld [.response 404 ['n', 'o']]) defaultClient
    Context.Background "/calendar/today" [] ⟨"http://localhost:8000/v5/api/calendar/today", ""⟩
    404 ['n', 'o'] rfl (by decide) (by decide) rfl).1

/-! ## The envelope decoder -/

/-- C3, as the code has it: `parseEnvelope` never returns an error.  For every body it returns
an envelope, and when `json.Unmarshal` fails (the body is not valid JSON) that envelope is the
compatibility envelope whose payload is the raw body. -/
theorem parseEnvelope_never_fails (unmarshal : RawMessage → Except Err Envelope)
    (body : RawMessage) :
    (∃ env, parseEnvelope unmarshal body = .ok env) ∧
    (∀ e, unmarshal body = .error e →
      parseEnvelope unmarshal body = .ok (compatEnvelope body)) := by
  refine ⟨parseEnvelope_ok unmarshal body, ?_⟩
  intro e he
  simp [parseEnvelope, he]

/-- C3 fails on the code: the body `not json` is not valid JSON, `json.Unmarshal` rejects it,
and `parseEnvelope` returns an envelope and no error; so does the empty body. -/
theorem parseEnvelope_not_json :
    Json.parseDocument "not json".toList = none ∧
    (∃ e, Json.unmarshalEnvelope exampleParseFloat "not json".toList = .error e) ∧
    parseEnvelope (Json.unmarshalEnvelope exampleParseFloat) "not json".toList
      = .ok (compatEnvelope "not json".toList) ∧
    Json.parseDocument [] = none ∧
    parseEnvelope (Json.unmarshalEnvelope exampleParseFloat) [] = .ok (compatEnvelope []) := by
  refine ⟨rfl, ⟨_, rfl⟩, by decide, rfl, by decide⟩

/-- C5: for every body for which the structured parse fails or yields an empty `data` field,
`parseEnvelope` returns the envelope whose payload is the entire body and whose metadata is the
compatibility defaults, every optional field unset. -/
theorem parseEnvelope_legacy (unmarshal : RawMessage → Except Err Envelope) (body : RawMessage)
    (h : (∃ e, unmarshal body = .error e) ∨
      (∃ env, unmarshal body = .ok env ∧ env.Data.length = 0)) :
    parseEnvelope unmarshal body
      = .ok { Data := body
              Meta :=
                { Confidence := { Level := "unknown", Score := Float64.half }
                  Method := "unknown"
                  Provenance :=
                    { SnapshotID := none, DatasetHash := none, RulesHash := none,
                      VerifyURL := none, Signature := none }
                  Uncertainty := { IntervalHours := none, BoundaryRisk := "unknown" }
                  TraceID := none
                  Policy := { Profile := "np-mainstream", Jurisdiction := "NP", Advisory := true } } } := by
  rcases h with ⟨e, he⟩ | ⟨env, he, hlen⟩
  · simp [parseEnvelope, he, compatEnvelope, ProvenanceMeta.zero]
  · simp [parseEnvelope, he, hlen, compatEnvelope, ProvenanceMeta.zero]

/-- C5 at the bare body `{"bs_date":"2081-09-30"}`, which decodes with an empty `data`. -/
theorem parseEnvelope_legacy_witness :
    parseEnvelope (Json.unmarshalEnvelope exampleParseFloat) legacyBody
      = .ok { Data := "\x7b\"bs_date\":\"2081-09-30\"\x7d".toList
              Meta :=
                { Confidence := { Level := "unknown", Score := Float64.half }
                  Method := "unknown"
                  Provenance :=
                    { SnapshotID := none, DatasetHash := none, RulesHash := none,
                      VerifyURL := none, Signature := none }
                  Uncertainty := { IntervalHours := none, BoundaryRisk := "unknown" }
                  TraceID := none
                  Policy := { Profile := "np-mainstream", Jurisdiction := "NP", Advisory := true } } } :=
  parseEnvelope_legacy (Json.unmarshalEnvelope exampleParseFloat) legacyBody
    (Or.inr ⟨Envelope.zero, by decide, rfl⟩)

theorem backoffThen_ok (c : Client) (ctx : Context) (st : LoopState) (next : LoopState → Run)
    (env : Envelope) (h : (backoffThen c ctx st next).halt = .ok env) :
    ∃ st2, (next st2).halt = .ok env := by
  unfold backoffThen at h
  split at h
  · split at h
    · simp at h
    · exact ⟨_, h⟩
  · exact ⟨_, h⟩

/-- A call that returns an envelope got it from `parseEnvelope` on the body of a 2xx
response. -/
theorem retryLoop_ok_source (w : World) (c : Client) (ctx : Context) (u : URL) :
    ∀ (fuel : Nat) (st : LoopState) (env : Envelope),
      (retryLoop w c ctx u fuel st).halt = .ok env →
      ∃ k status body, w.exchange u k = .response status body ∧ 200 ≤ status ∧ status < 300 ∧
        parseEnvelope w.jsonUnmarshal body = .ok env := by
  intro fuel
  induction fuel with
  | zero => intro st env h; simp [retryLoop] at h
  | succ fuel ih =>
    intro st env h
    rw [retryLoop] at h
    split at h
    · split at h
      · simp at h
      · rename_i e hx
        obtain ⟨st2, h2⟩ := backoffThen_ok c ctx _ _ env (by simpa [Run.after] using h)
        exact ih st2 env h2
      · rename_i e hx
        obtain ⟨st2, h2⟩ := backoffThen_ok c ctx _ _ env (by simpa [Run.after] using h)
        exact ih st2 env h2
      · rename_i status body hx
        have hlive : st.cancelled = false := by
          by_contra hc
          simp only [Bool.not_eq_false] at hc
          simp [hc] at hx
        simp only [hlive, Bool.false_eq_true, if_false] at hx
        simp only [Run.after] at h
        split at h
        · rename_i h2xx
          split at h
          · simp at h
          · rename_i env2 hp
            simp only [Halt.ok.injEq] at h
            subst h
            exact ⟨st.sent, status, body, hx, h2xx.1, h2xx.2, hp⟩
        · split at h
          · simp at h
          · obtain ⟨st2, h2⟩ := backoffThen_ok c ctx _ _ env h
            exact ih st2 env h2
    · split at h <;> simp at h

/-- C7, as the code has it: a call that returns successfully got a 2xx response, and the
payload of the returned envelope is non-empty unless the body of that response was empty, in
which case the call returns the compatibility envelope with the empty payload. -/
theorem getWithContext_payload (w : World) (c : Client) (ctx : Context) (path : String)
    (params : List (String × String)) (env : Envelope)
    (h : (getWithContext w c ctx path params).halt = .ok env) :
    ∃ u k status body, requestURL w c path params = .ok u ∧
      w.exchange u k = .response status body ∧ 200 ≤ status ∧ status < 300 ∧
      parseEnvelope w.jsonUnmarshal body = .ok env ∧
      (0 < env.Data.length ∨ (body = [] ∧ env = compatEnvelope [])) := by
  unfold getWithContext at h
  cases hu : requestURL w c path params with
  | error e => simp [hu] at h
  | ok u =>
    simp only [hu] at h
    obtain ⟨k, status, body, hx, h1, h2, hp⟩ := retryLoop_ok_source w c ctx u _ _ env h
    refine ⟨u, k, status, body, rfl, hx, h1, h2, hp, ?_⟩
    unfold parseEnvelope at hp
    cases hun : w.jsonUnmarshal body with
    | error e =>
      simp only [hun, Except.ok.injEq] at hp
      subst hp
      cases body with
      | nil => exact Or.inr ⟨rfl, rfl⟩
      | cons x xs => exact Or.inl (by simp [compatEnvelope])
    | ok env2 =>
      simp only [hun] at hp
      split at hp
      · rename_i hlen
        simp only [Except.ok.injEq] at hp
        subst hp
        exact Or.inl hlen
      · simp only [Except.ok.injEq] at hp
        subst hp
        cases body with
        | nil => exact Or.inr ⟨rfl, rfl⟩
        | cons x xs => exact Or.inl (by simp [compatEnvelope])

/-- C7 at a concrete input: the call that gets the legacy body after two 503 responses. -/
theorem getWithContext_payload_witness :
    ∃ u k status body,
      requestURL flakyWorld defaultClient "/calendar/today" [] = .ok u ∧
      flakyWorld.exchange u k = .response status body ∧ 200 ≤ status ∧ status < 300 ∧
      parseEnvelope flakyWorld.jsonUnmarshal body = .ok (compatEnvelope legacyBody) ∧
      (0 < (compatEnvelope legacyBody).Data.length ∨
        (body = [] ∧ compatEnvelope legacyBody = compatEnvelope [])) :=
  getWithContext_payload flakyWorld defaultClient Context.Background "/calendar/today" []
    (compatEnvelope legacyBody) rfl

/-- C7 fails on the code: a 200 response with an empty body makes the call return
successfully with an envelope whose payload is empty. -/
theorem getWithContext_empty_payload :
    (getWithContext (exampleWorld [.response 200 []]) defaultClient Context.Background
        "/calendar/today" []).halt = .ok (compatEnvelope []) ∧
    (compatEnvelope []).Data.length = 0 := by
  exact ⟨rfl, rfl⟩

/-! ## The query string -/

theorem Values.find_Set_self (q : Values) (k v : String) : (q.Set k v).find k = some [v] := by
  simp [Values.Set, Values.find, List.lookup]

theorem Values.find_filter_ne (q : Values) (k k2 : String) (h : k ≠ k2) :
    Values.find (q.filter fun e => e.1 != k2) k = Values.find q k := by
  induction q with
  | nil => rfl
  | cons e q ih =>
    obtain ⟨a, b⟩ := e
    simp only [Values.find] at ih ⊢
    by_cases ha : a = k2
    · subst ha
      have hka : (k == a) = false := by simpa using h
      have haa : (a != a) = false := by simp
      rw [List.filter_cons]
      simp only [haa, Bool.false_eq_true, if_false, List.lookup_cons, hka]
      exact ih
    · have hne : (a != k2) = true := by simpa using ha
      rw [List.filter_cons]
      simp only [hne, if_true, List.lookup_cons]
      cases hka : (k == a) with
      | true => rfl
      | false => exact ih

theorem Values.find_Set_ne (q : Values) (k k2 v : String) (h : k ≠ k2) :
    (q.Set k2 v).find k = q.find k := by
  have hk : (k == k2) = false := by simpa using h
  have := Values.find_filter_ne q k k2 h
  simp only [Values.find] at this ⊢
  simp only [Values.Set, List.lookup_cons, hk]
  exact this

/-- What the loop over the parameter map leaves under a key: the parameter's value when the
map has a non-empty value for the key, and what was there before otherwise. -/
theorem setParams_find (k : String) :
    ∀ (params : List (String × String)) (q : Values), (params.map Prod.fst).Nodup →
      (setParams q params).find k
        = match params.lookup k with
          | some v => if v = "" then q.find k else some [v]
          | none => q.find k := by
  intro params
  induction params with
  | nil => intro q _; rfl
  | cons p rest ih =>
    intro q hnd
    obtain ⟨k2, v2⟩ := p
    simp only [List.map_cons, List.nodup_cons] at hnd
    obtain ⟨hnot, hnd2⟩ := hnd
    by_cases hk : k = k2
    · subst hk
      have hnone : rest.lookup k = none := by
        rw [List.lookup_eq_none_iff]
        intro p hp
        have : k ≠ p.1 := fun hpk => hnot (hpk ▸ List.mem_map_of_mem Prod.fst hp)
        simpa using this
      by_cases hv : v2 = ""
      · subst hv
        simp [setParams, ih q hnd2, hnone, List.lookup_cons]
      · simp [setParams, hv, ih _ hnd2, hnone, List.lookup_cons, Values.find_Set_self]
    · have hkb : (k == k2) = false := by simpa using hk
      by_cases hv : v2 = ""
      · subst hv
        simp [setParams, ih q hnd2, List.lookup_cons, hkb]
      · simp [setParams, hv, ih _ hnd2, List.lookup_cons, hkb, Values.find_Set_ne q k k2 v2 hk]

theorem lookup_eq_some_of_nodup (k v : String) :
    ∀ (params : List (String × String)), (params.map Prod.fst).Nodup →
      (params.lookup k = some v ↔ (k, v) ∈ params) := by
  intro params
  induction params with
  | nil => intro _; simp
  | cons p rest ih =>
    intro hnd
    obtain ⟨k2, v2⟩ := p
    simp only [List.map_cons, List.nodup_cons] at hnd
    obtain ⟨hnot, hnd2⟩ := hnd
    by_cases hk : k = k2
    · subst hk
      have hnm : (k, v) ∉ rest := fun hm => hnot (by simpa using List.mem_map_of_mem Prod.fst hm)
      simp only [List.lookup_cons, beq_self_eq_true, Option.some.injEq, List.mem_cons,
        Prod.mk.injEq, true_and, hnm, or_false]
      exact eq_comm
    · have hkb : (k == k2) = false := by simpa using hk
      simp [List.lookup_cons, hkb, ih hnd2, hk]

theorem mem_insertKey (x k : String) : ∀ l : List String, x ∈ insertKey k l ↔ x = k ∨ x ∈ l
  | [] => by simp [insertKey]
  | y :: ys => by
    have ih := mem_insertKey x k ys
    simp only [insertKey]
    split
    · simp
    · simp only [List.mem_cons, ih]
      tauto

theorem mem_sortedKeys (x : String) (q : Values) : x ∈ sortedKeys q ↔ x ∈ q.map Prod.fst := by
  unfold sortedKeys
  induction q.map Prod.fst with
  | nil => simp
  | cons k ks ih => simp [List.foldr_cons, mem_insertKey, ih]

theorem Values.find_some_mem_keys (q : Values) (k : String) (vs : List String)
    (h : q.find k = some vs) : k ∈ q.map Prod.fst := by
  induction q with
  | nil => simp [Values.find] at h
  | cons e q ih =>
    obtain ⟨a, b⟩ := e
    simp only [Values.find, List.lookup_cons] at h ih
    cases hka : (k == a) with
    | true =>
      have : k = a := by simpa using hka
      simp [this]
    | false =>
      simp only [hka] at h
      simp [ih h]

/-- The pairs written to the query string are the values found under the keys. -/
theorem Values.mem_pairs (q : Values) (k v : String) :
    (k, v) ∈ q.pairs ↔ ∃ vs, q.find k = some vs ∧ v ∈ vs := by
  unfold Values.pairs
  simp only [List.mem_flatMap, List.mem_map, Prod.mk.injEq]
  constructor
  · rintro ⟨k2, _, v2, hv, rfl, rfl⟩
    cases hf : q.find k2 with
    | none => simp [hf] at hv
    | some vs => exact ⟨vs, rfl, by simpa [hf] using hv⟩
  · rintro ⟨vs, hf, hv⟩
    exact ⟨k, (mem_sortedKeys k q).mpr (q.find_some_mem_keys k vs hf), v, by simpa [hf] using hv,
      rfl, rfl⟩

/-- C8: with a base URL and path that carry no query of their own, the query sent is the
encoding of the values built from the parameter map.  The `key=value` pairs it writes are
exactly the map's entries whose value is not the empty string: a key is present if and only if
the map's value for it is not the empty string, and then with exactly that one value.  In
particular `Panchanga("")` builds a query without a `date` key (the empty query string), and
`Panchanga(d)` for non-empty `d` builds the query `date=d`. -/
theorem requestURL_query (w : World) (c : Client) (path : String)
    (params : List (String × String)) (u0 : URL)
    (hu : w.urlParse (c.BaseURL ++ path) = .ok u0) (hq : w.urlQuery u0 = [])
    (hnd : (params.map Prod.fst).Nodup) :
    requestURL w c path params
      = .ok { u0 with RawQuery := Values.Encode w.queryEscape (setParams [] params) } ∧
    (∀ k v, (k, v) ∈ (setParams [] params).pairs ↔ ((k, v) ∈ params ∧ v ≠ "")) ∧
    (∀ k v, (setParams [] params).find k = some [v] ↔ ((k, v) ∈ params ∧ v ≠ "")) ∧
    (∀ k, (setParams [] params).find k = none ↔ ∀ v, (k, v) ∈ params → v = "") ∧
    (∀ d, Panchanga w c d
      = getWithContext w c Context.Background "/calendar/panchanga" (panchangaParams d)) ∧
    (setParams [] (panchangaParams "")).find "date" = none ∧
    Values.Encode w.queryEscape (setParams [] (panchangaParams "")) = "" ∧
    (∀ d, d ≠ "" →
      (setParams [] (panchangaParams d)).find "date" = some [d] ∧
      Values.Encode w.queryEscape (setParams [] (panchangaParams d))
        = w.queryEscape "date" ++ "=" ++ w.queryEscape d) := by
  have hfind : ∀ k v, (setParams [] params).find k = some [v] ↔ ((k, v) ∈ params ∧ v ≠ "") := by
    intro k v
    rw [setParams_find k params [] hnd]
    constructor
    · intro h
      cases hl : params.lookup k with
      | none => simp [hl, Values.find] at h
      | some v2 =>
        simp only [hl] at h
        split at h
        · simp [Values.find] at h
        · rename_i hv
          simp only [Option.some.injEq, List.cons.injEq, and_true] at h
          subst h
          exact ⟨(lookup_eq_some_of_nodup k v2 params hnd).mp hl, hv⟩
    · rintro ⟨hm, hv⟩
      have hl := (lookup_eq_some_of_nodup k v params hnd).mpr hm
      simp [hl, hv]
  refine ⟨?_, ?_, hfind, ?_, fun d => rfl, rfl, rfl, ?_⟩
  · simp [requestURL, hu, hq]
  · intro k v
    rw [Values.mem_pairs]
    constructor
    · rintro ⟨vs, hf, hv⟩
      have hsingle : ∃ v2, vs = [v2] := by
        rw [setParams_find k params [] hnd] at hf
        cases hl : params.lookup k with
        | none => simp [hl, Values.find] at hf
        | some v2 =>
          simp only [hl] at hf
          split at hf
          · simp [Values.find] at hf
          · exact ⟨v2, by simpa using hf.symm⟩
      obtain ⟨v2, rfl⟩ := hsingle
      have : v = v2 := by simpa using hv
      subst this
      exact (hfind k v).mp hf
    · intro h
      exact ⟨[v], (hfind k v).mpr h, by simp⟩
  · intro k
    rw [setParams_find k params [] hnd]
    constructor
    · intro h v hm
      have hl := (lookup_eq_some_of_nodup k v params hnd).mpr hm
      simp only [hl] at h
      by_contra hv
      simp [hv] at h
    · intro h
      cases hl : params.lookup k with
      | none => simp [Values.find]
      | some v2 =>
        have := h v2 ((lookup_eq_some_of_nodup k v2 params hnd).mp hl)
        simp [this, Values.find]
  · intro d hd
    constructor
    · simp [panchangaParams, hd, setParams, Values.find_Set_self]
    · simp [panchangaParams, hd, setParams, Values.Set, Values.Encode, Values.pairs, sortedKeys,
        insertKey, Values.find, List.lookup, String.intercalate, String.intercalate.go]

/-- C8 at a concrete input: of three parameters the one with the empty value is left out. -/
theorem requestURL_query_witness :
    requestURL (exampleWorld []) defaultClient "/resolve"
        [("date", "2025-01-15"), ("profile", "np-mainstream"), ("include_trace", "")]
      = .ok { Loc := "http://localhost:8000/v5/api/resolve"
              RawQuery := "date=2025-01-15&profile=np-mainstream" } :=
  (requestURL_query (exampleWorld []) defaultClient "/resolve"
    [("date", "2025-01-15"), ("profile", "np-mainstream"), ("include_trace", "")]
    ⟨"http://localhost:8000/v5/api/resolve", ""⟩ rfl rfl (by decide)).1.trans (by decide)

/-! ## Backoff -/

theorem backoff_exact (B : Int) (i : Nat) (hB : 0 ≤ B) (h : B * 2 ^ i < 2 ^ 63) :
    wrap64 (B * wrap64 (2 ^ i)) = B * 2 ^ i := by
  rcases hB.eq_or_lt with h0 | hpos
  · subst h0
    simp [wrap64]
  · have hp : (0 : Int) < 2 ^ i := by positivity
    have hi : i < 63 := by
      by_contra hge
      have h63 : (2 : Int) ^ 63 ≤ 2 ^ i := pow_le_pow_right₀ (by norm_num) (by omega)
      have : (2 : Int) ^ i ≤ B * 2 ^ i := le_mul_of_one_le_left hp.le (by omega)
      omega
    rw [wrap64_pow_lt i hi]
    apply wrap64_of_range
    · have : 0 ≤ B * 2 ^ i := by positivity
      have h2 : (-2 : Int) ^ 63 ≤ 0 := by norm_num
      omega
    · unfold maxInt64
      omega

theorem sum_backoff (B : Int) (f : Nat → Int) :
    ∀ R : Nat, (∀ i, i < R → f i = B * 2 ^ i) →
      ((List.range R).map f).sum = B * (2 ^ R - 1) := by
  intro R
  induction R with
  | zero => intro _; simp
  | succ R ih =>
    intro h
    rw [List.range_succ, List.map_append, List.sum_append, ih (fun i hi => h i (by omega))]
    simp only [List.map_cons, List.map_nil, List.sum_cons, List.sum_nil, add_zero]
    rw [h R (by omega)]
    ring

/-- A call whose attempts all fail with transient errors: every attempt but the last is
followed by its backoff sleep, and the call returns the last error. -/
theorem getWithContext_all_failed (w : World) (c : Client) (path : String)
    (params : List (String × String)) (u : URL) (R : Nat)
    (hu : requestURL w c path params = .ok u)
    (hR : c.Retries = R) (hmax : c.Retries < maxInt64)
    (hfail : ∀ i : Nat, i ≤ R → (w.exchange u i).transientErr ≠ none) :
    (getWithContext w c Context.Background path params).events
      = failedRounds c 0 R ++ [.request R] := by
  have hget : getWithContext w c Context.Background path params
      = retryLoop w c Context.Background u (R + 2) ⟨0, none, 0, 0, false⟩ := by
    simp [getWithContext, hu, hR]
  obtain ⟨st2, h1, h2, h3, _, _, _, h7⟩ :=
    retryLoop_failed_rounds w c Context.Background u hmax.le 2 R 0
      ⟨0, none, 0, 0, false⟩ rfl rfl rfl (by simpa using hR.ge)
      (fun i _ hi => hfail i (by omega))
      (fun j _ => by simp [Context.Background])
  simp only [Nat.zero_add] at h1 h2
  obtain ⟨e, he⟩ := Option.ne_none_iff_exists'.mp (hfail R (le_refl R))
  have hlast := retryLoop_last_failed w c Context.Background u 0 st2 e
    (by rw [h1]; exact Int.natCast_nonneg R) (by rw [h1, hR]) hmax
    (by simp [h3, h2, he])
  have hfuel : R + 2 = 2 + R := by omega
  rw [hget, hfuel, h7, hlast, h2]
  simp [Run.afterAll]

/-- C9, as the code has it.  While attempts remain, each failed attempt `i` is followed at once
by the call `time.Sleep` with argument `Backoff * 2^i` computed in 64-bit arithmetic; that
argument is exactly `Backoff * 2^i` whenever the product is below `2^63`.  A call whose attempts
all fail makes `Retries + 1` attempts with a sleep after each but the last, and when every
product is below `2^63` it sleeps `Backoff * (2^Retries - 1)` in total. -/
theorem getWithContext_backoff (w : World) (c : Client) (path : String)
    (params : List (String × String)) (u : URL)
    (hu : requestURL w c path params = .ok u)
    (hR : 0 ≤ c.Retries) (hmax : c.Retries < maxInt64) (hB : 0 ≤ c.Backoff) :
    (∀ k : Nat, (k : Int) ≤ c.Retries →
      (∀ i, i < k → (w.exchange u i).transientErr ≠ none) →
      ∃ tail, (getWithContext w c Context.Background path params).events
        = failedRounds c 0 k ++ tail) ∧
    (∀ i : Nat, c.Backoff * 2 ^ i < 2 ^ 63 →
      wrap64 (c.Backoff * wrap64 (2 ^ i)) = c.Backoff * 2 ^ i) ∧
    ((∀ i : Nat, (i : Int) ≤ c.Retries → (w.exchange u i).transientErr ≠ none) →
      (getWithContext w c Context.Background path params).events
        = failedRounds c 0 c.Retries.toNat ++ [.request c.Retries.toNat] ∧
      (getWithContext w c Context.Background path params).attempts = c.Retries.toNat + 1 ∧
      (getWithContext w c Context.Background path params).sleeps
        = (List.range c.Retries.toNat).map (fun i => wrap64 (c.Backoff * wrap64 (2 ^ i))) ∧
      ((∀ i : Nat, (i : Int) < c.Retries → c.Backoff * 2 ^ i < 2 ^ 63) →
        ((getWithContext w c Context.Background path params).sleeps.map sleepTime).sum
          = c.Backoff * (2 ^ c.Retries.toNat - 1))) := by
  obtain ⟨R, hRe⟩ : ∃ R : Nat, c.Retries = R := ⟨c.Retries.toNat, by omega⟩
  have hRn : c.Retries.toNat = R := by omega
  refine ⟨?_, fun i h => backoff_exact c.Backoff i hB h, ?_⟩
  · intro k hk hfail
    have hget : getWithContext w c Context.Background path params
        = retryLoop w c Context.Background u (R + 2) ⟨0, none, 0, 0, false⟩ := by
      simp [getWithContext, hu, hRe]
    obtain ⟨st2, _, _, _, _, _, _, h7⟩ :=
      retryLoop_failed_rounds w c Context.Background u hmax.le (R + 2 - k) k 0
        ⟨0, none, 0, 0, false⟩ rfl rfl rfl (by simpa using hk)
        (fun i _ hi => hfail i (by omega))
        (fun j _ => by simp [Context.Background])
    have hfuel : R + 2 = (R + 2 - k) + k := by omega
    rw [hget, hfuel, h7]
    exact ⟨_, rfl⟩
  · intro hfail
    have hev := getWithContext_all_failed w c path params u R hu hRe hmax
      (fun i hi => hfail i (by rw [hRe]; exact_mod_cast hi))
    have hrun : getWithContext w c Context.Background path params
        = Run.afterAll (failedRounds c 0 R)
            ⟨[.request R], (getWithContext w c Context.Background path params).halt⟩ := by
      cases hg : getWithContext w c Context.Background path params with
      | mk ev hl =>
        rw [hg] at hev
        simp only at hev
        simp [Run.afterAll, hev]
    have hsl : (getWithContext w c Context.Background path params).sleeps
        = (List.range R).map (fun i => wrap64 (c.Backoff * wrap64 (2 ^ i))) := by
      rw [hrun, Run.sleeps_afterAll, sleeps_failedRounds]
      simp [Run.sleeps]
    rw [hRn]
    refine ⟨hev, ?_, hsl, ?_⟩
    · rw [hrun, Run.attempts_afterAll, attempts_failedRounds]
      simp [Run.attempts]
    · intro hfit
      rw [hsl, List.map_map]
      apply sum_backoff
      intro i hi
      have hlt := hfit i (by rw [hRe]; exact_mod_cast hi)
      simp only [Function.comp, backoff_exact c.Backoff i hB hlt, sleepTime]
      have : 0 ≤ c.Backoff * 2 ^ i := by positivity
      split
      · omega
      · rfl

/-- C9 at a concrete input: the default client against a server that answers 503 sleeps
300ms and 600ms, 900ms in total. -/
theorem getWithContext_backoff_witness :
    (getWithContext downWorld defaultClient Context.Background "/calendar/today" []).events
      = [.request 0, .sleep 300000000, .request 1, .sleep 600000000, .request 2] ∧
    ((getWithContext downWorld defaultClient Context.Background "/calendar/today" []).sleeps.map
      sleepTime).sum = 300000000 * (2 ^ 2 - 1) :=
  have h := (getWithContext_backoff downWorld defaultClient "/calendar/today" []
    ⟨"http://localhost:8000/v5/api/calendar/today", ""⟩ rfl (by decide) (by decide)
    (by decide)).2.2
    (fun i hi => by
      have h : i = 0 ∨ i = 1 ∨ i = 2 := by
        have : (i : Int) ≤ 2 := hi
        omega
      rcases h with h | h | h <;> subst h <;> simp [downWorld, exampleWorld, Exchange.transientErr])
  ⟨h.1.trans rfl, h.2.2.2 (fun i hi => by
      have h : i = 0 ∨ i = 1 := by
        have : (i : Int) < 2 := hi
        omega
      rcases h with h | h <;> subst h <;> decide)⟩

/-- C9 fails on the code where the product leaves the 64-bit range: with `Backoff = 2^62` ns and
2 retries against a server that is down, the sleep after the failed attempt 1 is called with
`2^62 * 2` reduced to 64 bits, which is `-2^63`, so `time.Sleep` returns at once; the call sleeps
`2^62` in total, not `2^62 * (2^2 - 1)`. -/
theorem backoff_overflow :
    (getWithContext downWorld longBackoffClient Context.Background "/calendar/today" []).events
      = [.request 0, .sleep (2 ^ 62), .request 1, .sleep (-2 ^ 63), .request 2] ∧
    longBackoffClient.Backoff * 2 ^ 1 = 2 ^ 63 ∧
    sleepTime (-2 ^ 63) = 0 ∧
    ((getWithContext downWorld longBackoffClient Context.Background "/calendar/today"
      []).sleeps.map sleepTime).sum = 2 ^ 62 ∧
    longBackoffClient.Backoff * (2 ^ 2 - 1) = 3 * 2 ^ 62 := by
  refine ⟨rfl, by decide, by decide, rfl, by decide⟩

/-! ## Cancellation -/

/-- C10, as the code has it.  The public operations take no context: each of them runs
`getWithContext` with `context.Background()`, which is never cancelled.  In `getWithContext` the
context is bound to the requests: when it is cancelled during the backoff sleep after the failed
attempt `k`, the call ends with the cancellation error. -/
theorem cancel_in_backoff :
    (∀ (w : World) (c : Client),
      Today w c = getWithContext w c Context.Background "/calendar/today" [] ∧
      SpecConformance w c = getWithContext w c Context.Background "/spec/conformance" []) ∧
    (∀ (w : World) (c : Client) (date : String),
      Convert w c date
        = getWithContext w c Context.Background "/calendar/convert" [("date", date)] ∧
      Panchanga w c date
        = getWithContext w c Context.Background "/calendar/panchanga" (panchangaParams date)) ∧
    (∀ (w : World) (c : Client) (days : Int),
      Upcoming w c days
        = getWithContext w c Context.Background "/festivals/upcoming"
            [("days", toString days)]) ∧
    (∀ (w : World) (c : Client) (id : String) (year : Int),
      ExplainFestival w c id year
        = getWithContext w c Context.Background ("/festivals/" ++ id ++ "/explain")
            [("year", toString year)] ∧
      ExplainTrace w c id = getWithContext w c Context.Background ("/explain/" ++ id) [] ∧
      VerifyTrace w c id
        = getWithContext w c Context.Background ("/provenance/verify/trace/" ++ id) []) ∧
    (∀ (w : World) (c : Client) (sprintf : Float64 → String) (date profile : String)
        (latitude longitude : Float64) (includeTrace : Bool),
      Resolve w c sprintf date profile latitude longitude includeTrace
        = getWithContext w c Context.Background "/resolve"
            [("date", date),
             ("profile", if profile = "" then "np-mainstream" else profile),
             ("latitude", sprintf latitude),
             ("longitude", sprintf longitude),
             ("include_trace", toString includeTrace)]) ∧
    (∀ (w : World) (c : Client) (path : String) (params : List (String × String)) (u : URL)
        (k : Nat),
      requestURL w c path params = .ok u → c.Retries < maxInt64 → (k : Int) < c.Retries →
      (∀ i, i ≤ k → (w.exchange u i).transientErr ≠ none) →
      (getWithContext w c ⟨some k⟩ path params).halt = .fail .canceled) := by
  refine ⟨fun _ _ => ⟨rfl, rfl⟩, fun _ _ _ => ⟨rfl, rfl⟩, fun _ _ _ => rfl,
    fun _ _ _ _ => ⟨rfl, rfl, rfl⟩, fun _ _ _ _ _ _ _ _ => rfl, ?_⟩
  intro w c path params u k hu hmax hk hfail
  obtain ⟨R, hRe⟩ : ∃ R : Nat, c.Retries = R := ⟨c.Retries.toNat, by omega⟩
  have hkR : k < R := by omega
  have hget : getWithContext w c ⟨some k⟩ path params
      = retryLoop w c ⟨some k⟩ u (R + 2) ⟨0, none, 0, 0, false⟩ := by
    simp [getWithContext, hu, hRe]
  obtain ⟨st2, h1, h2, h3, h4, _, _, h7⟩ :=
    retryLoop_failed_rounds w c ⟨some k⟩ u hmax.le (R + 2 - k) k 0
      ⟨0, none, 0, 0, false⟩ rfl rfl rfl (by simp; omega)
      (fun i _ hi => hfail i (by omega))
      (fun j hj => by simp; omega)
  simp only [Nat.zero_add] at h1 h2 h4
  obtain ⟨e, he⟩ := Option.ne_none_iff_exists'.mp (hfail k (le_refl k))
  have hfuel2 : R + 2 - k = ((R - k - 1) + 2) + 1 := by omega
  have hstep := retryLoop_failed_round w c ⟨some k⟩ u ((R - k - 1) + 2) st2 k e h1 h2
    (by omega) hmax.le h3 (by rw [h2]; exact he)
  have hcancel := retryLoop_cancelled w c ⟨some k⟩ u hmax (R - k - 1) 0
    { attempt := (k : Int) + 1, lastErr := some e, sent := k + 1, slept := st2.slept + 1,
      cancelled := ((⟨some k⟩ : Context).cancelInSleep == some st2.slept) }
    (by simp [h4]) (by simp; omega) (by simp; omega)
  have hfuel : R + 2 = (R + 2 - k) + k := by omega
  rw [hget, hfuel, h7, hfuel2, hstep]
  simp only [Nat.zero_add] at hcancel
  simp only [Run.afterAll]
  exact hcancel

/-- C10 at a concrete input: cancellation during the first backoff sleep of the default
client. -/
theorem cancel_in_backoff_witness :
    (getWithContext downWorld defaultClient ⟨some 0⟩ "/calendar/today" []).halt
      = .fail .canceled :=
  cancel_in_backoff.2.2.2.2.2 downWorld defaultClient "/calendar/today" []
    ⟨"http://localhost:8000/v5/api/calendar/today", ""⟩ 0 rfl (by decide) (by decide)
    (fun i hi => by
      have h : i = 0 := by omega
      subst h
      simp [downWorld, exampleWorld, Exchange.transientErr])

/-- C10 fails on the code: with 2 retries, 300ms backoff and a server that answers 503, raising
the cancellation signal during the first backoff sleep does not end the call there.  The sleep
is `time.Sleep`, which the context cannot interrupt; the call goes on with attempt 1, sleeps
another 600ms, makes attempt 2, and only then returns the cancellation error. -/
theorem cancel_does_not_stop_retries :
    getWithContext downWorld defaultClient ⟨some 0⟩ "/calendar/today" []
      = ⟨[.request 0, .sleep 300000000, .request 1, .sleep 600000000, .request 2],
          .fail .canceled⟩ ∧
    (getWithContext downWorld defaultClient ⟨some 0⟩ "/calendar/today" []).attempts = 3 ∧
    (getWithContext downWorld defaultClient ⟨some 0⟩ "/calendar/today" []).sleeps
      = [300000000, 600000000] := by
  exact ⟨rfl, rfl, rfl⟩

/-! ## The model of `encoding/json`: reading back what was written -/

namespace Json

theorem skipSpace_of_not_space (c : Char) (cs : List Char) (h : isSpace c = false) :
    skipSpace (c :: cs) = c :: cs := by
  simp [skipSpace, h]

theorem digit?_char (d : Digit) : digit? d.char = some d := by
  fin_cases d <;> rfl

theorem hex4_control : ∀ n : Nat, n < 32 →
    hex4 '0' '0' (hexDigit (n / 16)) (hexDigit (n % 16)) = some n := by
  decide

theorem parseStringBody_escapeChar (c : Char) (fuel : Nat) (tail : List Char) :
    parseStringBody (fuel + 1) (escapeChar c ++ tail)
      = (parseStringBody fuel tail).map fun p => (c :: p.1, p.2) := by
  unfold escapeChar
  by_cases h1 : c = '"'
  · subst h1
    simp [parseStringBody, simpleEscape]
  · by_cases h2 : c = '\\'
    · subst h2
      simp [parseStringBody, simpleEscape]
    · by_cases h3 : c.toNat < 32
      · have hhex := hex4_control c.toNat h3
        have hns : ¬ (0xD800 ≤ c.toNat ∧ c.toNat < 0xE000) := by omega
        simp only [h1, h2, h3, if_true, if_false, List.cons_append, List.nil_append]
        rw [parseStringBody]
        simp only [show ('\\' : Char) ≠ '"' by decide, if_false, if_true, hhex, hns,
          Char.ofNat_toNat]
      · simp [parseStringBody, h1, h2, h3]

theorem parseStringBody_render : ∀ (s : List Char) (fuel : Nat) (rest : List Char),
    s.length < fuel →
    parseStringBody fuel (s.flatMap escapeChar ++ '"' :: rest) = some (s, rest) := by
  intro s
  induction s with
  | nil =>
    intro fuel rest h
    obtain ⟨f, rfl⟩ : ∃ f, fuel = f + 1 := ⟨fuel - 1, by simp at h; omega⟩
    simp [parseStringBody]
  | cons c s ih =>
    intro fuel rest h
    obtain ⟨f, rfl⟩ : ∃ f, fuel = f + 1 := ⟨fuel - 1, by omega⟩
    simp only [List.flatMap_cons, List.append_assoc]
    rw [parseStringBody_escapeChar, ih f rest (by simp at h; omega)]
    rfl

theorem length_le_flatMap_escapeChar (s : List Char) :
    s.length ≤ (s.flatMap escapeChar).length := by
  induction s with
  | nil => simp
  | cons c s ih =>
    have : 1 ≤ (escapeChar c).length := by
      unfold escapeChar
      split
      · simp
      · split
        · simp
        · split <;> simp
    simp only [List.flatMap_cons, List.length_append, List.length_cons]
    omega

/-- Reading back a rendered string: what follows the opening quote of `renderString s`
decodes to `s`. -/
theorem parseString_render (s : String) (rest : List Char) :
    parseString (s.data.flatMap escapeChar ++ '"' :: rest) = some (s, rest) := by
  unfold parseString
  rw [parseStringBody_render s.data _ rest]
  · rfl
  · have := length_le_flatMap_escapeChar s.data
    simp only [List.length_append, List.length_cons]
    omega


theorem takeDigits_render (ds : List Digit) (t : List Char)
    (ht : ∀ c, t.head? = some c → digit? c = none) :
    takeDigits (renderDigits ds ++ t) = (ds, t) := by
  induction ds with
  | nil =>
    cases t with
    | nil => rfl
    | cons c r => simp [renderDigits, takeDigits, ht c rfl]
  | cons d ds ih =>
    simp only [renderDigits, List.map_cons, List.cons_append] at ih ⊢
    simp [takeDigits, digit?_char, ih]

theorem ofNat_49_toNat (d : Fin 9) : (Char.ofNat (49 + d.val)).toNat = 49 + d.val := by
  fin_cases d <;> rfl

theorem parseInt_render (i : Option (Fin 9 × List Digit)) (t : List Char)
    (ht : ∀ c, t.head? = some c → digit? c = none) :
    parseInt (renderInt i ++ t) = some (i, t) := by
  cases i with
  | none => simp [renderInt, parseInt]
  | some p =>
    obtain ⟨d, ds⟩ := p
    have hc := ofNat_49_toNat d
    have h0 : Char.ofNat (49 + d.val) ≠ '0' := by
      intro h
      have := congrArg Char.toNat h
      rw [hc] at this
      have h48 : ('0' : Char).toNat = 48 := rfl
      omega
    have hr : 49 ≤ (Char.ofNat (49 + d.val)).toNat ∧ (Char.ofNat (49 + d.val)).toNat < 58 := by
      rw [hc]; omega
    simp only [renderInt, List.cons_append, parseInt, h0, if_false, hr, dite_true,
      takeDigits_render ds t ht, and_self]
    simp [hc]

theorem parseFrac_render (f : Option (Digit × List Digit)) (t : List Char)
    (ht : ∀ c, t.head? = some c → digit? c = none ∧ c ≠ '.') :
    parseFrac (renderFrac f ++ t) = some (f, t) := by
  cases f with
  | none =>
    cases t with
    | nil => rfl
    | cons c r => simp [renderFrac, parseFrac, (ht c rfl).2]
  | some p =>
    obtain ⟨d, ds⟩ := p
    simp [renderFrac, parseFrac, digit?_char,
      takeDigits_render ds t (fun c hc => (ht c hc).1)]

theorem digit_char_ne_sign (d : Digit) : d.char ≠ '+' ∧ d.char ≠ '-' := by
  fin_cases d <;> decide

theorem parseExp_render (e : Option Exponent) (t : List Char)
    (ht : ∀ c, t.head? = some c → digit? c = none ∧ c ≠ 'e' ∧ c ≠ 'E') :
    parseExp (renderExp e ++ t) = some (e, t) := by
  cases e with
  | none =>
    cases t with
    | nil => rfl
    | cons c r => simp [renderExp, parseExp, (ht c rfl).2.1, (ht c rfl).2.2]
  | some x =>
    obtain ⟨upper, sign, first, more⟩ := x
    have hd := takeDigits_render more t (fun c hc => (ht c hc).1)
    have hs := digit_char_ne_sign first
    cases upper <;> cases sign with
    | none =>
      simp [renderExp, Exponent.render, parseExp, parseSign, hs.1, hs.2, digit?_char, hd]
    | some b =>
      cases b <;>
        simp [renderExp, Exponent.render, parseExp, parseSign, digit?_char, hd]

theorem renderInt_head (i : Option (Fin 9 × List Digit)) (t : List Char) :
    ∃ c r, renderInt i ++ t = c :: r ∧ (digit? c).isSome = true := by
  cases i with
  | none => exact ⟨'0', t, rfl, rfl⟩
  | some p =>
    obtain ⟨d, ds⟩ := p
    refine ⟨Char.ofNat (49 + d.val), renderDigits ds ++ t, rfl, ?_⟩
    fin_cases d <;> rfl

theorem digit_ne_minus (c : Char) (h : (digit? c).isSome = true) : c ≠ '-' := by
  intro hc
  subst hc
  simp [digit?] at h

/-- Reading back a rendered number literal, when what follows cannot continue a number. -/
theorem parseNumber_render (n : Number) (rest : List Char)
    (hrest : ∀ c, rest.head? = some c → digit? c = none ∧ c ≠ '.' ∧ c ≠ 'e' ∧ c ≠ 'E') :
    parseNumber (n.render ++ rest) = some (n, rest) := by
  obtain ⟨neg, i, f, e⟩ := n
  have hexp := parseExp_render e rest (fun c hc => ⟨(hrest c hc).1, (hrest c hc).2.2⟩)
  have ht3 : ∀ c, (renderExp e ++ rest).head? = some c → digit? c = none ∧ c ≠ '.' := by
    intro c hc
    cases e with
    | none => exact ⟨(hrest c hc).1, (hrest c hc).2.1⟩
    | some x =>
      obtain ⟨upper, sign, first, more⟩ := x
      cases upper <;>
        simp only [renderExp, Exponent.render, List.cons_append, List.head?_cons,
          Option.some.injEq, Bool.false_eq_true, if_false, if_true] at hc <;>
        subst hc <;> exact ⟨rfl, by decide⟩
  have hfrac := parseFrac_render f (renderExp e ++ rest) ht3
  have ht2 : ∀ c, (renderFrac f ++ (renderExp e ++ rest)).head? = some c → digit? c = none := by
    intro c hc
    cases f with
    | none => exact (ht3 c hc).1
    | some p =>
      obtain ⟨d, ds⟩ := p
      simp only [renderFrac, List.cons_append, List.head?_cons, Option.some.injEq] at hc
      subst hc
      rfl
  have hint := parseInt_render i (renderFrac f ++ (renderExp e ++ rest)) ht2
  obtain ⟨c0, r0, hc0, hd0⟩ := renderInt_head i (renderFrac f ++ (renderExp e ++ rest))
  cases neg with
  | true =>
    simp only [Number.render, if_true, List.cons_append, List.nil_append, List.append_assoc,
      parseNumber, decide_True, List.drop_succ_cons, List.drop_zero, hint, hfrac, hexp]
  | false =>
    have hne := digit_ne_minus c0 hd0
    simp only [Number.render, Bool.false_eq_true, if_false, List.nil_append,
      List.append_assoc, parseNumber]
    rw [hc0] at hint ⊢
    simp only [hne, decide_False, Bool.false_eq_true, if_false, hint, hfrac, hexp]


theorem digit_not_opener (c : Char) (h : (digit? c).isSome = true) :
    c ≠ '{' ∧ c ≠ '[' ∧ c ≠ '"' ∧ c ≠ 't' ∧ c ≠ 'f' ∧ c ≠ 'n' ∧ c ≠ ']' ∧ isSpace c = false := by
  have hr : 48 ≤ c.toNat ∧ c.toNat < 58 := by
    by_contra hn
    simp [digit?, hn] at h
  refine ⟨?_, ?_, ?_, ?_, ?_, ?_, ?_, ?_⟩ <;>
    first
    | (intro hc; subst hc; revert hr; decide)
    | (simp only [isSpace, Bool.or_eq_false_iff, decide_eq_false_iff_not]
       refine ⟨⟨⟨?_, ?_⟩, ?_⟩, ?_⟩ <;> (intro hc; subst hc; revert hr; decide))

/-- The text of a number starts with `-` or a digit. -/
theorem Number.render_starts (n : Number) (t : List Char) :
    ∃ c r, n.render ++ t = c :: r ∧ (c = '-' ∨ (digit? c).isSome = true) := by
  obtain ⟨neg, i, f, e⟩ := n
  cases neg with
  | true => exact ⟨'-', _, rfl, Or.inl rfl⟩
  | false =>
    obtain ⟨c, r, hc, hd⟩ := renderInt_head i (renderFrac f ++ (renderExp e ++ t))
    exact ⟨c, r, by simpa [Number.render] using hc, Or.inr hd⟩

/-- The text of a value is not empty and starts neither with white space nor with `]`. -/
theorem Value.render_head (v : Value) (t : List Char) :
    ∃ c r, v.render ++ t = c :: r ∧ isSpace c = false ∧ c ≠ ']' := by
  cases v with
  | null => exact ⟨_, _, rfl, by decide, by decide⟩
  | bool b => cases b <;> exact ⟨_, _, rfl, by decide, by decide⟩
  | num n =>
    obtain ⟨c, r, hc, hd⟩ := n.render_starts t
    refine ⟨c, r, by simpa [Value.render] using hc, ?_⟩
    rcases hd with hd | hd
    · subst hd; exact ⟨by decide, by decide⟩
    · exact ⟨(digit_not_opener c hd).2.2.2.2.2.2.2, (digit_not_opener c hd).2.2.2.2.2.2.1⟩
  | str s => exact ⟨_, _, rfl, by decide, by decide⟩
  | arr vs => exact ⟨_, _, rfl, by decide, by decide⟩
  | obj ms => exact ⟨_, _, rfl, by decide, by decide⟩

theorem skipSpace_render (v : Value) (t : List Char) :
    skipSpace (v.render ++ t) = v.render ++ t := by
  obtain ⟨c, r, hc, hs, _⟩ := v.render_head t
  rw [hc]
  exact skipSpace_of_not_space c r hs

theorem renderElems_cons_cons (v v2 : Value) (vs : List Value) (t : List Char) :
    renderElems (v :: v2 :: vs) ++ t = v.render ++ ',' :: (renderElems (v2 :: vs) ++ t) := by
  simp [renderElems]

theorem renderElems_head (v : Value) (vs : List Value) (t : List Char) :
    ∃ c r, renderElems (v :: vs) ++ t = c :: r ∧ isSpace c = false ∧ c ≠ ']' := by
  cases vs with
  | nil =>
    obtain ⟨c, r, hc, h⟩ := v.render_head t
    exact ⟨c, r, by simpa [renderElems] using hc, h⟩
  | cons v2 vs =>
    obtain ⟨c, r, hc, h⟩ := v.render_head (',' :: (renderElems (v2 :: vs) ++ t))
    exact ⟨c, r, by rw [renderElems_cons_cons]; exact hc, h⟩

theorem length_le_renderElems : ∀ (vs : List Value), vs.length ≤ (renderElems vs).length
  | [] => by simp
  | [v] => by
    obtain ⟨c, r, hc, _⟩ := v.render_head []
    have := congrArg List.length hc
    simp at this
    simp [renderElems]
    omega
  | v :: v2 :: vs => by
    have ih := length_le_renderElems (v2 :: vs)
    have := congrArg List.length (renderElems_cons_cons v v2 vs [])
    simp only [List.append_nil, List.length_append, List.length_cons] at this ih ⊢
    omega

theorem renderMembers_cons_cons (k : String) (v : Value) (m : String × Value)
    (ms : List (String × Value)) (t : List Char) :
    renderMembers ((k, v) :: m :: ms) ++ t
      = '"' :: (k.data.flatMap escapeChar ++
          '"' :: ':' :: (v.render ++ ',' :: (renderMembers (m :: ms) ++ t))) := by
  simp [renderMembers, renderString]

theorem renderMembers_single (k : String) (v : Value) (t : List Char) :
    renderMembers [(k, v)] ++ t
      = '"' :: (k.data.flatMap escapeChar ++ '"' :: ':' :: (v.render ++ t)) := by
  simp [renderMembers, renderString]

theorem length_le_renderMembers : ∀ (ms : List (String × Value)),
    ms.length ≤ (renderMembers ms).length
  | [] => by simp
  | [(k, v)] => by
    have := congrArg List.length (renderMembers_single k v [])
    simp only [List.append_nil, List.length_cons] at this
    simp only [List.length_cons, List.length_nil]
    omega
  | (k, v) :: m :: ms => by
    have ih := length_le_renderMembers (m :: ms)
    have := congrArg List.length (renderMembers_cons_cons k v m ms [])
    simp only [List.append_nil, List.length_append, List.length_cons] at this ih ⊢
    omega

theorem follows_comma (t : List Char) :
    ∀ c, (',' :: t).head? = some c → digit? c = none ∧ c ≠ '.' ∧ c ≠ 'e' ∧ c ≠ 'E' := by
  intro c hc
  simp only [List.head?_cons, Option.some.injEq] at hc
  subst hc
  exact ⟨rfl, by decide, by decide, by decide⟩

theorem follows_bracket (t : List Char) :
    ∀ c, (']' :: t).head? = some c → digit? c = none ∧ c ≠ '.' ∧ c ≠ 'e' ∧ c ≠ 'E' := by
  intro c hc
  simp only [List.head?_cons, Option.some.injEq] at hc
  subst hc
  exact ⟨rfl, by decide, by decide, by decide⟩

theorem follows_brace (t : List Char) :
    ∀ c, ('}' :: t).head? = some c → digit? c = none ∧ c ≠ '.' ∧ c ≠ 'e' ∧ c ≠ 'E' := by
  intro c hc
  simp only [List.head?_cons, Option.some.injEq] at hc
  subst hc
  exact ⟨rfl, by decide, by decide, by decide⟩

/-- Reading back the elements of an array with a reader `pv` that reads back each of them. -/
theorem parseElems_of_reader (pv : List Char → Option (Value × List Char)) :
    ∀ (vs : List Value) (n : Nat) (rest : List Char),
    (∀ v ∈ vs, ∀ t, (∀ c, t.head? = some c → digit? c = none ∧ c ≠ '.' ∧ c ≠ 'e' ∧ c ≠ 'E') →
      pv (v.render ++ t) = some (v, t)) →
    vs ≠ [] → vs.length ≤ n →
    parseElems pv n (renderElems vs ++ ']' :: rest) = some (vs, rest)
  | [], _, _, _, hne, _ => absurd rfl hne
  | [v], n, rest, hpv, _, hn => by
    obtain ⟨m, rfl⟩ : ∃ m, n = m + 1 := ⟨n - 1, by simp at hn; omega⟩
    have hv := hpv v (by simp) (']' :: rest) (follows_bracket rest)
    simp only [renderElems, List.append_nil]
    simp [parseElems, hv, skipSpace, isSpace]
  | v :: v2 :: vs, n, rest, hpv, _, hn => by
    obtain ⟨m, rfl⟩ : ∃ m, n = m + 1 := ⟨n - 1, by simp at hn; omega⟩
    have hv := hpv v (by simp) (',' :: (renderElems (v2 :: vs) ++ ']' :: rest))
      (follows_comma _)
    have ih := parseElems_of_reader pv (v2 :: vs) m rest
      (fun x hx => hpv x (List.mem_cons_of_mem _ hx)) (by simp) (by simp at hn ⊢; omega)
    have hsk : skipSpace (renderElems (v2 :: vs) ++ ']' :: rest)
        = renderElems (v2 :: vs) ++ ']' :: rest := by
      obtain ⟨c, r, hc, hs, _⟩ := renderElems_head v2 vs (']' :: rest)
      rw [hc]
      exact skipSpace_of_not_space c r hs
    rw [renderElems_cons_cons, parseElems, hv]
    simp [skipSpace, isSpace, hsk, ih]

theorem parseMembers_last (pv : List Char → Option (Value × List Char)) (n : Nat)
    (k : String) (v : Value) (rest : List Char)
    (hv : pv (v.render ++ '}' :: rest) = some (v, '}' :: rest)) :
    parseMembers pv (n + 1)
        ('"' :: (k.data.flatMap escapeChar ++ '"' :: ':' :: (v.render ++ '}' :: rest)))
      = some ([(k, v.render, v)], rest) := by
  have hk := parseString_render k (':' :: (v.render ++ '}' :: rest))
  rw [parseMembers]
  simp [hk, skipSpace, isSpace, skipSpace_render, hv]

theorem parseMembers_more (pv : List Char → Option (Value × List Char)) (n : Nat)
    (k : String) (v : Value) (next : List Char) (hnext : skipSpace next = next)
    (hv : pv (v.render ++ ',' :: next) = some (v, ',' :: next)) :
    parseMembers pv (n + 1)
        ('"' :: (k.data.flatMap escapeChar ++ '"' :: ':' :: (v.render ++ ',' :: next)))
      = match parseMembers pv n next with
        | none => none
        | some (ms, r6) => some ((k, v.render, v) :: ms, r6) := by
  have hk := parseString_render k (':' :: (v.render ++ ',' :: next))
  rw [parseMembers]
  simp [hk, skipSpace, isSpace, skipSpace_render, hv, hnext]

/-- Reading back the members of an object with a reader `pv` that reads back each of their
values: every member comes with the text of its value. -/
theorem parseMembers_of_reader (pv : List Char → Option (Value × List Char)) :
    ∀ (ms : List (String × Value)) (n : Nat) (rest : List Char),
    (∀ m ∈ ms, ∀ t, (∀ c, t.head? = some c → digit? c = none ∧ c ≠ '.' ∧ c ≠ 'e' ∧ c ≠ 'E') →
      pv (m.2.render ++ t) = some (m.2, t)) →
    ms ≠ [] → ms.length ≤ n →
    parseMembers pv n (renderMembers ms ++ '}' :: rest) = some (withText ms, rest)
  | [], _, _, _, hne, _ => absurd rfl hne
  | [(k, v)], n, rest, hpv, _, hn => by
    obtain ⟨m, rfl⟩ : ∃ m, n = m + 1 := ⟨n - 1, by simp at hn; omega⟩
    have hv := hpv (k, v) (by simp) ('}' :: rest) (follows_brace rest)
    rw [renderMembers_single, parseMembers_last pv m k v rest hv]
    rfl
  | (k, v) :: m2 :: ms, n, rest, hpv, _, hn => by
    obtain ⟨m, rfl⟩ : ∃ m, n = m + 1 := ⟨n - 1, by simp at hn; omega⟩
    have hv := hpv (k, v) (by simp) (',' :: (renderMembers (m2 :: ms) ++ '}' :: rest))
      (follows_comma _)
    have ih := parseMembers_of_reader pv (m2 :: ms) m rest
      (fun x hx => hpv x (List.mem_cons_of_mem _ hx)) (by simp) (by simp at hn ⊢; omega)
    have hsk : skipSpace (renderMembers (m2 :: ms) ++ '}' :: rest)
        = renderMembers (m2 :: ms) ++ '}' :: rest := by
      obtain ⟨k2, v2⟩ := m2
      cases ms with
      | nil => rw [renderMembers_single]; rfl
      | cons m3 ms => rw [renderMembers_cons_cons]; rfl
    rw [renderMembers_cons_cons, parseMembers_more pv m k v _ hsk hv, ih]
    rfl

theorem mem_depthElems : ∀ (vs : List Value) (v : Value), v ∈ vs → v.depth ≤ depthElems vs
  | [], _, h => by simp at h
  | x :: xs, v, h => by
    simp only [List.mem_cons] at h
    simp only [depthElems]
    rcases h with h | h
    · subst h; omega
    · have := mem_depthElems xs v h
      omega

theorem mem_depthMembers : ∀ (ms : List (String × Value)) (m : String × Value),
    m ∈ ms → m.2.depth ≤ depthMembers ms
  | [], _, h => by simp at h
  | (k, x) :: xs, m, h => by
    simp only [List.mem_cons] at h
    simp only [depthMembers]
    rcases h with h | h
    · subst h; simp
    · have := mem_depthMembers xs m h
      omega

theorem withText_values (ms : List (String × Value)) :
    (withText ms).map (fun m => (m.1, m.2.2)) = ms := by
  induction ms with
  | nil => rfl
  | cons m ms ih =>
    simp only [withText, List.map_cons, List.map_map] at ih ⊢
    rw [ih]

theorem parseObject_quote (pv : List Char → Option (Value × List Char)) (r : List Char) :
    parseObject pv ('"' :: r) = parseMembers pv ('"' :: r).length ('"' :: r) := by
  simp [parseObject, skipSpace, isSpace]

theorem parseArray_head (pv : List Char → Option (Value × List Char)) (c : Char)
    (r : List Char) (hs : isSpace c = false) (hcb : c ≠ ']') :
    parseArray pv (c :: r) = parseElems pv (c :: r).length (c :: r) := by
  simp [parseArray, skipSpace_of_not_space c r hs, hcb]

theorem parseValue_scalar (depth : Nat) (c : Char) (r : List Char) (h1 : c ≠ '{')
    (h2 : c ≠ '[') : parseValue depth (c :: r) = parseScalar (c :: r) := by
  cases depth <;> simp [parseValue, h1, h2]

/-- Reading back a rendered scalar: followed by text that cannot continue a number, a value
that is no array and no object is read back at any depth. -/
theorem parseValue_render_scalar (depth : Nat) (v : Value) (rest : List Char)
    (hv : v.depth = 0)
    (hrest : ∀ c, rest.head? = some c → digit? c = none ∧ c ≠ '.' ∧ c ≠ 'e' ∧ c ≠ 'E') :
    parseValue depth (v.render ++ rest) = some (v, rest) := by
  cases v with
  | null =>
    simp only [Value.render, List.cons_append]
    rw [parseValue_scalar _ _ _ (by decide) (by decide)]
    simp [parseScalar, dropLit]
  | bool b =>
    cases b <;>
      · simp only [Value.render, List.cons_append]
        rw [parseValue_scalar _ _ _ (by decide) (by decide)]
        simp [parseScalar, dropLit]
  | num n =>
    obtain ⟨c, r, hc, hd⟩ := n.render_starts rest
    have hnum := parseNumber_render n rest hrest
    have hne : c ≠ '{' ∧ c ≠ '[' ∧ c ≠ '"' ∧ c ≠ 't' ∧ c ≠ 'f' ∧ c ≠ 'n' := by
      rcases hd with hd | hd
      · subst hd; decide
      · have := digit_not_opener c hd
        exact ⟨this.1, this.2.1, this.2.2.1, this.2.2.2.1, this.2.2.2.2.1, this.2.2.2.2.2.1⟩
    simp only [Value.render]
    rw [hc] at hnum ⊢
    rw [parseValue_scalar _ _ _ hne.1 hne.2.1]
    simp [parseScalar, hne.2.2.1, hne.2.2.2.1, hne.2.2.2.2.1, hne.2.2.2.2.2, hnum]
  | str s =>
    have := parseString_render s rest
    simp only [Value.render, renderString, List.cons_append, List.append_assoc,
      List.singleton_append]
    rw [parseValue_scalar _ _ _ (by decide) (by decide)]
    simp [parseScalar, this]
  | arr vs => simp [Value.depth] at hv
  | obj ms => simp [Value.depth] at hv

/-- Reading back a rendered value: when the value is nested no deeper than `depth` and is
followed by text that cannot continue a number, `parseValue` returns the value and the text that
follows. -/
theorem parseValue_render : ∀ (depth : Nat) (v : Value) (rest : List Char),
    v.depth ≤ depth →
    (∀ c, rest.head? = some c → digit? c = none ∧ c ≠ '.' ∧ c ≠ 'e' ∧ c ≠ 'E') →
    parseValue depth (v.render ++ rest) = some (v, rest) := by
  intro depth
  induction depth with
  | zero =>
    intro v rest hf hrest
    exact parseValue_render_scalar 0 v rest (by omega) hrest
  | succ f ih =>
    intro v rest hf hrest
    cases v with
    | null => exact parseValue_render_scalar _ _ rest rfl hrest
    | bool b => exact parseValue_render_scalar _ _ rest rfl hrest
    | num n => exact parseValue_render_scalar _ _ rest rfl hrest
    | str s => exact parseValue_render_scalar _ _ rest rfl hrest
    | arr vs =>
      cases vs with
      | nil => simp [Value.render, renderElems, parseValue, parseArray, skipSpace, isSpace]
      | cons v vs =>
        have hd : depthElems (v :: vs) ≤ f := by simp only [Value.depth] at hf; omega
        obtain ⟨c, r, hc, hs, hcb⟩ := renderElems_head v vs (']' :: rest)
        have hlen : (v :: vs).length ≤ (c :: r).length := by
          rw [← hc]
          have := length_le_renderElems (v :: vs)
          simp only [List.length_append]
          omega
        have hel := parseElems_of_reader (parseValue f) (v :: vs) (c :: r).length rest
          (fun x hx t ht => ih x t (by have := mem_depthElems _ x hx; omega) ht)
          (by simp) hlen
        rw [hc] at hel
        simp only [Value.render, List.cons_append, List.append_assoc, List.singleton_append,
          List.nil_append, parseValue]
        rw [hc, if_pos trivial, parseArray_head _ c r hs hcb, hel]
        rfl
    | obj ms =>
      cases ms with
      | nil => simp [Value.render, renderMembers, parseValue, parseObject, skipSpace, isSpace]
      | cons m ms =>
        have hd : depthMembers (m :: ms) ≤ f := by simp only [Value.depth] at hf; omega
        have hhead : ∃ r, renderMembers (m :: ms) ++ '}' :: rest = '"' :: r := by
          obtain ⟨k, v⟩ := m
          cases ms with
          | nil => exact ⟨_, renderMembers_single k v _⟩
          | cons m3 ms => exact ⟨_, renderMembers_cons_cons k v m3 ms _⟩
        obtain ⟨r, hc⟩ := hhead
        have hlen : (m :: ms).length ≤ ('"' :: r).length := by
          rw [← hc]
          have := length_le_renderMembers (m :: ms)
          simp only [List.length_append]
          omega
        have hel := parseMembers_of_reader (parseValue f) (m :: ms) ('"' :: r).length rest
          (fun x hx t ht => ih x.2 t (by have := mem_depthMembers _ x hx; omega) ht)
          (by simp) hlen
        rw [hc] at hel
        simp only [Value.render, List.cons_append, List.append_assoc, List.singleton_append,
          List.nil_append, parseValue]
        rw [hc, if_pos trivial, parseObject_quote, hel]
        simp only [Option.map_some']
        rw [withText_values]

theorem Value.render_length_pos (v : Value) : 0 < v.render.length := by
  obtain ⟨c, r, hc, _⟩ := v.render_head []
  have := congrArg List.length hc
  simp only [List.append_nil, List.length_cons] at this
  omega

theorem no_follower : ∀ c, ([] : List Char).head? = some c →
    digit? c = none ∧ c ≠ '.' ∧ c ≠ 'e' ∧ c ≠ 'E' := by
  intro c hc
  simp at hc

/-- Reading back a whole rendered document that is within the nesting limit. -/
theorem parseDocument_render (v : Value) (h : v.depth ≤ maxNestingDepth) :
    parseDocument v.render = some v := by
  have hsk : skipSpace v.render = v.render := by
    have := skipSpace_render v []
    simpa using this
  have hp := parseValue_render maxNestingDepth v [] h no_follower
  simp only [List.append_nil] at hp
  simp [parseDocument, hsk, hp, skipSpace]

/-- Decoding the text of a value within the nesting limit into a `json.RawMessage` gives that
text. -/
theorem unmarshalRawMessage_render (v : Value) (h : v.depth ≤ maxNestingDepth) :
    unmarshalRawMessage v.render = .ok v.render := by
  have hsk : skipSpace v.render = v.render := by
    have := skipSpace_render v []
    simpa using this
  have hp := parseValue_render maxNestingDepth v [] h no_follower
  simp only [List.append_nil] at hp
  simp [unmarshalRawMessage, hsk, hp, skipSpace]

/-- Decoding a rendered object within the nesting limit into an `Envelope` stores its members,
each with the text of its value. -/
theorem unmarshalEnvelope_render_obj (pf : List Char → Option Float64)
    (ms : List (String × Value)) (h : depthMembers ms < maxNestingDepth) :
    unmarshalEnvelope pf (Value.obj ms).render = envelopeFields pf (withText ms) Envelope.zero := by
  cases ms with
  | nil =>
    simp [Value.render, renderMembers, unmarshalEnvelope, skipSpace, isSpace, parseObject,
      withText]
  | cons m ms =>
    have hhead : ∃ r, renderMembers (m :: ms) ++ ['}'] = '"' :: r := by
      obtain ⟨k, v⟩ := m
      cases ms with
      | nil => exact ⟨_, renderMembers_single k v _⟩
      | cons m3 ms => exact ⟨_, renderMembers_cons_cons k v m3 ms _⟩
    obtain ⟨r, hc⟩ := hhead
    have hel := parseMembers_of_reader (parseValue (maxNestingDepth - 1)) (m :: ms)
      ('"' :: r).length []
      (fun x hx t ht => parseValue_render _ x.2 t (by
        have h1 := mem_depthMembers (m :: ms) x hx
        omega) ht)
      (by simp)
      (by
        have := length_le_renderMembers (m :: ms)
        have hl := congrArg List.length hc
        simp only [List.length_append, List.length_cons, List.length_nil] at this hl ⊢
        omega)
    rw [hc] at hel
    simp only [Value.render, unmarshalEnvelope]
    rw [hc, skipSpace_of_not_space _ _ (by decide)]
    simp only [if_true, parseObject_quote, hel, skipSpace]

/-! ### Input nested beyond the limit -/

theorem nestedArrays_depth : ∀ k : Nat, (nestedArrays k).depth = k + 1
  | 0 => by simp [nestedArrays, Value.depth, depthElems]
  | k + 1 => by
    have ih := nestedArrays_depth k
    simp [nestedArrays, Value.depth, depthElems, ih]

theorem nestedArrays_render (k : Nat) (t : List Char) :
    ∃ r, (nestedArrays k).render ++ t = '[' :: r := by
  cases k <;> exact ⟨_, rfl⟩

theorem parseValue_array (depth : Nat) (r : List Char) :
    parseValue (depth + 1) ('[' :: r)
      = (parseArray (parseValue depth) r).map fun p => (Value.arr p.1, p.2) := by
  simp [parseValue]

theorem parseElems_unreadable (pv : List Char → Option (Value × List Char)) (n : Nat)
    (cs : List Char) (h : pv cs = none) : parseElems pv (n + 1) cs = none := by
  simp [parseElems, h]

/-- Arrays nested deeper than `depth` are not read: the scanner gives up at the bracket that
exceeds the depth. -/
theorem parseValue_nestedArrays : ∀ (depth k : Nat) (rest : List Char), depth ≤ k →
    parseValue depth ((nestedArrays k).render ++ rest) = none := by
  intro depth
  induction depth with
  | zero =>
    intro k rest _
    obtain ⟨r, hr⟩ := nestedArrays_render k rest
    rw [hr]
    simp [parseValue]
  | succ f ih =>
    intro k rest hk
    obtain ⟨k2, rfl⟩ : ∃ k2, k = k2 + 1 := ⟨k - 1, by omega⟩
    obtain ⟨r, hr⟩ := nestedArrays_render k2 (']' :: rest)
    have hnone := ih k2 (']' :: rest) (by omega)
    rw [hr] at hnone
    have hrender : (nestedArrays (k2 + 1)).render ++ rest = '[' :: '[' :: r := by
      simp only [nestedArrays, Value.render, renderElems, List.cons_append, List.append_assoc,
        List.singleton_append, List.nil_append, List.append_nil]
      rw [hr]
    rw [hrender, parseValue_array, parseArray_head _ '[' r (by decide) (by decide),
      List.length_cons, parseElems_unreadable _ _ _ hnone]
    rfl

theorem parseMembers_unreadable (pv : List Char → Option (Value × List Char)) (n : Nat)
    (k : String) (v : Value) (t : List Char) (hv : pv (v.render ++ t) = none) :
    parseMembers pv (n + 1) ('"' :: (k.data.flatMap escapeChar ++ '"' :: ':' :: (v.render ++ t)))
      = none := by
  have hk := parseString_render k (':' :: (v.render ++ t))
  rw [parseMembers]
  simp [hk, skipSpace, isSpace, skipSpace_render, hv]

/-- A structured body whose `data` value cannot be read within the nesting left for it is
rejected by `json.Unmarshal`. -/
theorem unmarshalEnvelope_data_too_deep (pf : List Char → Option Float64) (d mv : Value)
    (hd : ∀ t, parseValue (maxNestingDepth - 1) (d.render ++ t) = none) :
    unmarshalEnvelope pf (Value.obj [("data", d), ("meta", mv)]).render
      = .error (.decode "invalid character") := by
  have hbody : (Value.obj [("data", d), ("meta", mv)]).render
      = '{' :: '"' :: ("data".data.flatMap escapeChar ++ '"' :: ':' ::
          (d.render ++ ',' :: (renderMembers [("meta", mv)] ++ ['}']))) := by
    simp only [Value.render]
    rw [renderMembers_cons_cons]
  rw [hbody]
  simp only [unmarshalEnvelope]
  rw [skipSpace_of_not_space _ _ (by decide)]
  simp only [if_true, parseObject_quote, List.length_cons]
  rw [parseMembers_unreadable _ _ "data" d _ (hd _)]

theorem decodeStringPtr_optString (o : Option String) : decodeStringPtr (optString o) = .ok o := by
  cases o <;> rfl

/-- Decoding the `meta` object written for a metadata record gives the record back, when the
number literals written for the score and the interval are read as the record's values. -/
theorem metaFields_metaValue (pf : List Char → Option Float64) (m : ResponseMeta)
    (scoreLit hoursLit : Number)
    (hscore : pf scoreLit.render = some m.Confidence.Score)
    (hhours : ∀ x, m.Uncertainty.IntervalHours = some x → pf hoursLit.render = some x) :
    decodeStruct (metaFields pf) (metaValue m scoreLit hoursLit) ResponseMeta.zero = .ok m := by
  obtain ⟨⟨level, score⟩, method, ⟨p1, p2, p3, p4, p5⟩, ⟨hours, risk⟩, trace, ⟨prof, jur, adv⟩⟩ := m
  simp only at hscore hhours
  cases hours with
  | none =>
    simp +decide [metaValue, decodeStruct, metaFields, confidenceFields, provenanceFields,
      uncertaintyFields, policyFields, decodeString, decodeFloat, decodeBool, decodeFloatPtr,
      decodeStringPtr_optString, hscore, ResponseMeta.zero, ProvenanceMeta.zero]
  | some x =>
    have hx := hhours x rfl
    simp +decide [metaValue, decodeStruct, metaFields, confidenceFields, provenanceFields,
      uncertaintyFields, policyFields, decodeString, decodeFloat, decodeBool, decodeFloatPtr,
      decodeStringPtr_optString, hscore, hx, ResponseMeta.zero, ProvenanceMeta.zero]

end Json

/-! ## Structured responses -/

theorem metaValue_depth (m : ResponseMeta) (scoreLit hoursLit : Json.Number) :
    (Json.metaValue m scoreLit hoursLit).depth = 2 := by
  obtain ⟨⟨level, score⟩, method, ⟨p1, p2, p3, p4, p5⟩, ⟨hours, risk⟩, trace, ⟨prof, jur, adv⟩⟩ := m
  cases p1 <;> cases p2 <;> cases p3 <;> cases p4 <;> cases p5 <;> cases hours <;> cases trace <;>
    simp [Json.metaValue, Json.optString, Json.Value.depth, Json.depthMembers]

/-- C6, as the code has it: the serialized structured body `{"data": d, "meta": m}` is
returned as it is when `d` is nested less than 10000 levels deep, so that the body is within
the nesting limit of `encoding/json`.  For every such JSON value `d` and every metadata record
`m`, `parseEnvelope` on that body returns the envelope whose payload is the text of `d` and whose
metadata is `m`; `DecodeData` on that envelope decodes the text of `d`, whatever the target
type, and into a `json.RawMessage` it gives that text back. -/
theorem parseEnvelope_structured (pf : List Char → Option Float64) (d : Json.Value)
    (m : ResponseMeta) (scoreLit hoursLit : Json.Number)
    (hdepth : d.depth < Json.maxNestingDepth)
    (hscore : pf scoreLit.render = some m.Confidence.Score)
    (hhours : ∀ x, m.Uncertainty.IntervalHours = some x → pf hoursLit.render = some x) :
    parseEnvelope (Json.unmarshalEnvelope pf) (Json.structuredBody d m scoreLit hoursLit)
      = .ok ⟨d.render, m⟩ ∧
    (∀ (T : Type) (unmarshalT : RawMessage → Except Err T),
      DecodeData unmarshalT ⟨d.render, m⟩ = unmarshalT d.render) ∧
    DecodeData Json.unmarshalRawMessage ⟨d.render, m⟩ = .ok d.render := by
  have hun : Json.unmarshalEnvelope pf (Json.structuredBody d m scoreLit hoursLit)
      = .ok ⟨d.render, m⟩ := by
    rw [Json.structuredBody, Json.unmarshalEnvelope_render_obj]
    · have hm := Json.metaFields_metaValue pf m scoreLit hoursLit hscore hhours
      simp +decide [Json.withText, Json.envelopeFields, Envelope.zero, hm]
    · have h2 := metaValue_depth m scoreLit hoursLit
      have h3 : 2 < Json.maxNestingDepth := by decide
      simp only [Json.depthMembers, h2]
      omega
  refine ⟨?_, fun _ _ => rfl, Json.unmarshalRawMessage_render d (by omega)⟩
  simp [parseEnvelope, hun, d.render_length_pos]

/-- C6 at the structured body with payload `{"tithi":"Purnima"}` and the example metadata. -/
theorem parseEnvelope_structured_witness :
    parseEnvelope (Json.unmarshalEnvelope exampleParseFloat)
        (Json.structuredBody (.obj [("tithi", .str "Purnima")]) exampleMeta lit075 lit1)
      = .ok ⟨"\x7b\"tithi\":\"Purnima\"\x7d".toList, exampleMeta⟩ ∧
    DecodeData Json.unmarshalRawMessage ⟨"\x7b\"tithi\":\"Purnima\"\x7d".toList, exampleMeta⟩
      = .ok "\x7b\"tithi\":\"Purnima\"\x7d".toList :=
  have h := parseEnvelope_structured exampleParseFloat (.obj [("tithi", .str "Purnima")])
    exampleMeta lit075 lit1 (by decide) (by decide) (fun x hx => by
      have : x = ⟨0x3FF0000000000000⟩ := by
        simpa [exampleMeta] using hx.symm
      subst this
      decide)
  ⟨h.1, h.2.2⟩

/-- C6 fails on the code for a value nested too deep: with `data` made of 10000 arrays nested
in one another the structured body has 10001 levels, `json.Unmarshal` rejects it, and
`parseEnvelope` returns the compatibility envelope, whose payload is the whole body and whose
metadata is the defaults, not the metadata sent. -/
theorem parseEnvelope_structured_too_deep :
    (Json.nestedArrays 9999).depth = Json.maxNestingDepth ∧
    exampleParseFloat lit075.render = some exampleMeta.Confidence.Score ∧
    parseEnvelope (Json.unmarshalEnvelope exampleParseFloat)
        (Json.structuredBody (Json.nestedArrays 9999) exampleMeta lit075 lit1)
      = .ok (compatEnvelope
          (Json.structuredBody (Json.nestedArrays 9999) exampleMeta lit075 lit1)) ∧
    (compatEnvelope
      (Json.structuredBody (Json.nestedArrays 9999) exampleMeta lit075 lit1)).Meta
      ≠ exampleMeta ∧
    parseEnvelope (Json.unmarshalEnvelope exampleParseFloat)
        (Json.structuredBody (Json.nestedArrays 9999) exampleMeta lit075 lit1)
      ≠ .ok ⟨(Json.nestedArrays 9999).render, exampleMeta⟩ := by
  have hmeta : (compatEnvelope
      (Json.structuredBody (Json.nestedArrays 9999) exampleMeta lit075 lit1)).Meta
      ≠ exampleMeta := by
    intro h
    have hl := congrArg (fun x => x.Confidence.Level) h
    revert hl
    decide
  have hrun : parseEnvelope (Json.unmarshalEnvelope exampleParseFloat)
        (Json.structuredBody (Json.nestedArrays 9999) exampleMeta lit075 lit1)
      = .ok (compatEnvelope
          (Json.structuredBody (Json.nestedArrays 9999) exampleMeta lit075 lit1)) := by
    have hun := Json.unmarshalEnvelope_data_too_deep exampleParseFloat (Json.nestedArrays 9999)
      (Json.metaValue exampleMeta lit075 lit1)
      (fun t => Json.parseValue_nestedArrays _ 9999 t (by decide))
    rw [Json.structuredBody, parseEnvelope, hun]
  refine ⟨(Json.nestedArrays_depth 9999).trans (by decide), by decide, hrun, hmeta, ?_⟩
  rw [hrun]
  intro h
  exact hmeta (congrArg Envelope.Meta (Except.ok.inj h))

/-- C4, as the code has it: the metadata is the synthesized defaults when the structured parse
fails or leaves `data` empty; a body with a `data` field and no `meta` field, when it is within
the nesting limit of `encoding/json`, is returned as decoded, with the zero-value metadata
(every string empty, score 0, advisory false). -/
theorem parseEnvelope_metadata_source (unmarshal : RawMessage → Except Err Envelope)
    (pf : List Char → Option Float64) (body : RawMessage) (d : Json.Value) :
    (((∃ e, unmarshal body = .error e) ∨ (∃ env, unmarshal body = .ok env ∧ env.Data = [])) →
      ∃ env, parseEnvelope unmarshal body = .ok env ∧ env.Meta = (compatEnvelope []).Meta) ∧
    (∀ env, unmarshal body = .ok env → env.Data ≠ [] → parseEnvelope unmarshal body = .ok env) ∧
    (d.depth < Json.maxNestingDepth →
      parseEnvelope (Json.unmarshalEnvelope pf) (Json.Value.obj [("data", d)]).render
        = .ok ⟨d.render, ResponseMeta.zero⟩) := by
  refine ⟨?_, ?_, ?_⟩
  · rintro (⟨e, he⟩ | ⟨env, he, hd⟩)
    · exact ⟨compatEnvelope body, by simp [parseEnvelope, he], rfl⟩
    · exact ⟨compatEnvelope body, by simp [parseEnvelope, he, hd], rfl⟩
  · intro env he hd
    have : 0 < env.Data.length := List.length_pos.mpr hd
    simp [parseEnvelope, he, this]
  · intro hdepth
    have hun : Json.unmarshalEnvelope pf (Json.Value.obj [("data", d)]).render
        = .ok ⟨d.render, ResponseMeta.zero⟩ := by
      rw [Json.unmarshalEnvelope_render_obj]
      · simp +decide [Json.withText, Json.envelopeFields, Envelope.zero]
      · simp only [Json.depthMembers]
        omega
    simp [parseEnvelope, hun, d.render_length_pos]

/-- C4 fails on the code: the body `{"data":1}` has a non-empty `data` field and no `meta`
field, and the envelope returned for it carries the zero-value metadata, not the synthesized
defaults (its confidence level is the empty string, not `unknown`). -/
theorem parseEnvelope_data_without_meta :
    parseEnvelope (Json.unmarshalEnvelope exampleParseFloat) "\x7b\"data\":1\x7d".toList
      = .ok ⟨['1'], ResponseMeta.zero⟩ ∧
    ResponseMeta.zero.Confidence.Level = "" ∧
    ResponseMeta.zero ≠ (compatEnvelope "\x7b\"data\":1\x7d".toList).Meta := by
  refine ⟨by decide, rfl, by decide⟩

end Parva
